import Mathlib

/-!
Shallow embedding of the placement / replication core of
`src/distributed_fs.py` (a didactic Ceph-like replicated object store),
together with theorems settling the frozen specification claims.

Python dicts are embedded as insertion-ordered association lists,
Python sets of strings as duplicate-free lists maintained by
`insertIfNew`, and the process-global PRNG used by `SimpleCRUSH` as an
explicitly threaded deterministic generator state (`Nat`).
-/

namespace DistFS

/-- Lookup of a key in an insertion-ordered association list; embeds
Python `d[k]` / `d.get(k)` (first, i.e. unique, matching key wins). -/
def dictFind {κ α : Type} [DecidableEq κ] (m : List (κ × α)) (k : κ) : Option α :=
  match m with
  | [] => none
  | (k', v) :: rest => if k' = k then some v else dictFind rest k

/-- Update (`d[k] = v`): replaces the value in place when the key is
present (Python dicts keep insertion position), else appends. -/
def dictSet {κ α : Type} [DecidableEq κ] (m : List (κ × α)) (k : κ) (v : α) : List (κ × α) :=
  match m with
  | [] => [(k, v)]
  | (k', v') :: rest => if k' = k then (k', v) :: rest else (k', v') :: dictSet rest k v

/-- In-place mutation of the value stored under `k`, a no-op when the
key is absent; embeds mutating the object found by a guarded lookup. -/
def dictModify {κ α : Type} [DecidableEq κ] (m : List (κ × α)) (k : κ) (f : α → α) :
    List (κ × α) :=
  match m with
  | [] => []
  | (k', v) :: rest => if k' = k then (k', f v) :: rest else (k', v) :: dictModify rest k f

/-- Embeds Python `set.add`: appends the element unless already present. -/
def insertIfNew {α : Type} [DecidableEq α] (l : List α) (a : α) : List α :=
  if a ∈ l then l else l ++ [a]

/-- Linear congruential step: deterministic stand-in for one draw from
Python's global Mersenne-Twister PRNG (the claims depend only on the
generator being a deterministic function of its state). -/
def lcg (g : Nat) : Nat := (g * 1103515245 + 12345) % 2147483648

/-- Deterministic string hash used to model `random.seed(pgid)` seeding
the global PRNG from the placement-group id string. -/
def strSeed (s : String) : Nat :=
  s.data.foldl (fun h c => (h * 31 + c.toNat) % 2147483648) 7

/-- Deterministic stand-in for Python's builtin `hash` on strings, used
by `Pool.get_pg_id` (the source relies on the non-portable language
default; the claims depend only on determinism). -/
def pyHash (s : String) : Nat :=
  s.data.foldl (fun h c => (h * 1000003 + c.toNat) % 2305843009213693951) 5381

/-- Deterministic stand-in for `hashlib.sha256(data).hexdigest()`; the
claims depend only on the digest being a function of the bytes. -/
def sha256 (data : List Nat) : Nat :=
  data.foldl (fun h b => (h * 131 + b % 256 + 1) % 340282366920938463463374607431768211507) 17

/-- Remove-and-return the element at the given index of `x :: xs`
(index taken modulo the length by the callers); helper for the
modelled Fisher-Yates style shuffle. -/
def pickOut {α : Type} (x : α) (xs : List α) : Nat → α × List α
  | 0 => (x, xs)
  | k + 1 =>
    match xs with
    | [] => (x, [])
    | y :: ys =>
      let p := pickOut y ys k
      (p.1, x :: p.2)

/-- Fuel-indexed shuffle loop; the fuel is always instantiated with the
list length, so the `0, l` fallback is never reached with `l ≠ []`. -/
def shuffleAux {α : Type} : Nat → List α → Nat → List α × Nat
  | _, [], g => ([], g)
  | 0, l, g => (l, g)
  | fuel + 1, x :: xs, g =>
    let p := pickOut x xs (g % (xs.length + 1))
    let s := shuffleAux fuel p.2 (lcg g)
    (p.1 :: s.1, s.2)

/-- Embeds `random.shuffle(l)` with the modelled PRNG: returns the
shuffled list and the advanced generator state. -/
def modelShuffle {α : Type} (l : List α) (g : Nat) : List α × Nat :=
  shuffleAux l.length l g

/-- Embeds `random.choice(l)` with the modelled PRNG (callers only use
it on nonempty lists, matching the source's guards). -/
def modelChoice (l : List Nat) (g : Nat) : Nat × Nat :=
  (l.getD (g % l.length) 0, lcg g)

/-- OSD state enum (`OSDAState` in the source). -/
inductive OSDAState where
  | up
  | down
  | out
deriving DecidableEq, Repr

/-- Placement-group state enum (`PGState` in the source). -/
inductive PGState where
  | activeClean
  | activeDegraded
  | inactive
  | recovering
deriving DecidableEq, Repr

/-- Object metadata record built by `RADOS.put_object` and stored both
in `pool.objects` and alongside the bytes on each OSD. -/
structure ObjectMeta where
  object_id : String
  pool_id : Nat
  size_bytes : Nat
  checksum : Nat
  upload_time : String
  pg_id : String
deriving DecidableEq, Repr

/-- OSD record. `data_path`, `weight` and `last_heartbeat` are omitted:
no embedded operation reads them. The on-disk object store (one data
blob plus one metadata blob per key `"{pool_id}_{object_id}"`) is
embedded as the `store` association list. -/
structure OSD where
  osd_id : Nat
  rack : String
  state : OSDAState
  pg_assignments : List String
  store : List (String × (List Nat × ObjectMeta))
deriving DecidableEq, Repr

/-- Pool record (`Pool` in the source). -/
structure Pool where
  pool_id : Nat
  name : String
  size : Nat
  min_size : Nat
  pg_num : Nat
  objects : List (String × ObjectMeta)
deriving DecidableEq, Repr

/-- Placement-group record (`PlacementGroup` in the source). -/
structure PlacementGroup where
  pgid : String
  pool_id : Nat
  primary_osd : Option Nat
  replica_osds : List Nat
  state : PGState
  objects : List String
deriving DecidableEq, Repr

/-- Acting set of a PG: `[primary] ++ replicas` when a primary is set,
else empty (`PlacementGroup.get_acting_set`). -/
def actingSet (pg : PlacementGroup) : List Nat :=
  match pg.primary_osd with
  | none => []
  | some p => p :: pg.replica_osds

/-- Monitor / cluster-map record. `crushDomains` embeds `self.crush`:
`none` until the first `add_osd`, and otherwise the failure-domain map
frozen by `SimpleCRUSH.__init__` (the `SimpleCRUSH.osds` field aliases
the monitor's live `osd_map`, so it is not duplicated here). -/
structure Monitor where
  osd_map : List (Nat × OSD)
  pg_map : List (String × PlacementGroup)
  pools : List (Nat × Pool)
  crushDomains : Option (List (String × List Nat))
  epoch : Nat
deriving DecidableEq, Repr

/-- Fresh monitor (`Monitor.__init__`). -/
def initMonitor : Monitor :=
  { osd_map := [], pg_map := [], pools := [], crushDomains := none, epoch := 1 }

/-- Test whether the OSD stored under id `i` is currently `up`
(`self.osds[osd_id].state == OSDAState.UP`; a missing key would raise
in Python but is unreachable because the ids come from the map). -/
def osdUp (m : List (Nat × OSD)) (i : Nat) : Bool :=
  match dictFind m i with
  | some o => decide (o.state = OSDAState.up)
  | none => false

/-- Append an OSD id to its rack's bucket, creating the bucket at the
end on first use (defaultdict insertion order). -/
def addToDomain (ds : List (String × List Nat)) (rack : String) (i : Nat) :
    List (String × List Nat) :=
  match ds with
  | [] => [(rack, [i])]
  | (r, l) :: rest =>
    if r = rack then (r, l ++ [i]) :: rest else (r, l) :: addToDomain rest rack i

/-- Loop of `SimpleCRUSH._build_failure_map` over the OSD values. -/
def buildFailureMapAux (ds : List (String × List Nat)) :
    List (Nat × OSD) → List (String × List Nat)
  | [] => ds
  | kv :: rest =>
    buildFailureMapAux
      (if kv.2.state = OSDAState.up then addToDomain ds kv.2.rack kv.2.osd_id else ds) rest

/-- Embeds `SimpleCRUSH._build_failure_map`: groups the ids of `up`
OSDs by rack, in map insertion order. -/
def buildFailureMap (m : List (Nat × OSD)) : List (String × List Nat) :=
  buildFailureMapAux [] m

/-- First phase of `SimpleCRUSH.select_osds`: walk the shuffled racks,
picking one currently-`up` OSD from each unused rack until the desired
replication size is reached. Arguments thread the accumulated
selection, the used-rack set and the PRNG state. -/
def phase1 (domains : List (String × List Nat)) (m : List (Nat × OSD)) (n : Nat) :
    List String → List Nat → List String → Nat → List Nat × List String × Nat
  | [], sel, used, g => (sel, used, g)
  | rack :: rest, sel, used, g =>
    if n ≤ sel.length then (sel, used, g)
    else
      let rackOsds := ((dictFind domains rack).getD []).filter (fun i => osdUp m i)
      if rackOsds ≠ [] ∧ rack ∉ used then
        let c := modelChoice rackOsds g
        phase1 domains m n rest (sel ++ [c.1]) (used ++ [rack]) c.2
      else
        phase1 domains m n rest sel used g

/-- Embeds `SimpleCRUSH.select_osds`. `g0` is the process-global PRNG
state at entry; `random.seed(pgid)` overwrites it, which is why the
result cannot depend on it. The trailing `random.seed()` of the source
only re-randomizes the global state and is not observable through the
returned list. -/
def selectOsds (domains : List (String × List Nat)) (m : List (Nat × OSD))
    (pgid : String) (n : Nat) (g0 : Nat) : List Nat :=
  let _ := g0
  let g := strSeed pgid
  let sh := modelShuffle (domains.map Prod.fst) g
  let ph := phase1 domains m n sh.1 [] [] sh.2
  let sel := ph.1
  let sel2 :=
    if sel.length < n then
      let avail := (m.map Prod.fst).filter (fun i => osdUp m i && decide (i ∉ sel))
      sel ++ (modelShuffle avail ph.2.2).1.take (n - sel.length)
    else sel
  sel2.take n

/-- Update one PG from a fresh selection (`_update_pg_mappings` loop
body up to the assignment bookkeeping): nonempty selection installs
primary/replicas and an active state, empty selection only marks the
PG inactive, leaving the stale acting set in place. The skip branch on
a missing pool is unreachable on states satisfying invariant I1 (every
PG's `pool_id` references an existing pool); in Python it would raise. -/
def updateOnePg (m : List (Nat × OSD)) (domains : List (String × List Nat))
    (pools : List (Nat × Pool)) (pg : PlacementGroup) : PlacementGroup × List Nat :=
  match dictFind pools pg.pool_id with
  | none => (pg, [])
  | some pool =>
    match selectOsds domains m pg.pgid pool.size 0 with
    | [] => ({ pg with state := PGState.inactive }, [])
    | o :: rest =>
      ({ pg with
          primary_osd := some o
          replica_osds := rest
          state :=
            if pool.size ≤ (o :: rest).length then PGState.activeClean
            else PGState.activeDegraded },
        o :: rest)

/-- Record the PG in the `pg_assignments` of every selected OSD that is
present in the map (`if osd_id in self.osd_map` guard of the source). -/
def addAssignments (m : List (Nat × OSD)) (pgid : String) (osds : List Nat) :
    List (Nat × OSD) :=
  match osds with
  | [] => m
  | i :: rest =>
    addAssignments
      (dictModify m i (fun o => { o with pg_assignments := insertIfNew o.pg_assignments pgid }))
      pgid rest

/-- Loop of `_update_pg_mappings` over `pg_map.values()`, threading the
mutated OSD map (the source mutates the shared dict in place). -/
def updatePgsAux (domains : List (String × List Nat)) (pools : List (Nat × Pool)) :
    List (String × PlacementGroup) → List (Nat × OSD) →
      List (String × PlacementGroup) × List (Nat × OSD)
  | [], m => ([], m)
  | (k, pg) :: rest, m =>
    let u := updateOnePg m domains pools pg
    let m2 := addAssignments m u.1.pgid u.2
    let r := updatePgsAux domains pools rest m2
    ((k, u.1) :: r.1, r.2)

/-- Embeds `Monitor._update_pg_mappings`: early return when no CRUSH
context or no pools exist, else recompute every PG. -/
def updatePgMappings (mon : Monitor) : Monitor :=
  match mon.crushDomains with
  | none => mon
  | some domains =>
    if mon.pools.isEmpty then mon
    else
      let r := updatePgsAux domains mon.pools mon.pg_map mon.osd_map
      { mon with pg_map := r.1, osd_map := r.2 }

/-- Embeds `Monitor.add_osd`: insert the OSD, rebuild the CRUSH
failure-domain snapshot, remap PGs, bump the epoch. -/
def addOsd (mon : Monitor) (osd : OSD) : Monitor :=
  let m2 := dictSet mon.osd_map osd.osd_id osd
  let mon2 := updatePgMappings
    { mon with osd_map := m2, crushDomains := some (buildFailureMap m2) }
  { mon2 with epoch := mon2.epoch + 1 }

/-- Embeds `Monitor.remove_osd`: mark the OSD `out`, remap, bump the
epoch; a missing id is a silent no-op. -/
def removeOsd (mon : Monitor) (osd_id : Nat) : Monitor :=
  if (dictFind mon.osd_map osd_id).isSome then
    let m2 := dictModify mon.osd_map osd_id (fun o => { o with state := OSDAState.out })
    let mon2 := updatePgMappings { mon with osd_map := m2 }
    { mon2 with epoch := mon2.epoch + 1 }
  else mon

/-- Placement-group id string `"{pool_id}.{pg_index}"`. -/
def mkPgid (pool_id idx : Nat) : String :=
  toString pool_id ++ "." ++ toString idx

/-- Embeds `Monitor.create_pool`: next id is `len(self.pools)`, the
pool is created with the default `min_size = 2`, its PGs are
materialized, and mappings are recomputed. Note the source does not
check the name for uniqueness and does not touch the epoch. -/
def createPool (mon : Monitor) (name : String) (size pg_num : Nat) : Nat × Monitor :=
  let pool_id := mon.pools.length
  let pool : Pool :=
    { pool_id := pool_id, name := name, size := size, min_size := 2,
      pg_num := pg_num, objects := [] }
  let pools2 := dictSet mon.pools pool_id pool
  let pgs2 := (List.range pg_num).foldl
    (fun acc i =>
      dictSet acc (mkPgid pool_id i)
        { pgid := mkPgid pool_id i, pool_id := pool_id, primary_osd := none,
          replica_osds := [], state := PGState.inactive, objects := [] })
    mon.pg_map
  let mon2 := updatePgMappings { mon with pools := pools2, pg_map := pgs2 }
  (pool_id, mon2)

/-- Embeds `SimpleCephCluster.set_osd_state`: set the state when the id
exists (an unrecognized state string leaves the state unchanged but
still remaps and returns `True`), remap, return success; note no epoch
bump anywhere on this path. -/
def setOsdState (mon : Monitor) (osd_id : Nat) (state : String) : Bool × Monitor :=
  if (dictFind mon.osd_map osd_id).isSome then
    (true, updatePgMappings
      { mon with osd_map :=
          (if state = "up" then
            dictModify mon.osd_map osd_id (fun o => { o with state := OSDAState.up })
          else if state = "down" then
            dictModify mon.osd_map osd_id (fun o => { o with state := OSDAState.down })
          else if state = "out" then
            dictModify mon.osd_map osd_id (fun o => { o with state := OSDAState.out })
          else mon.osd_map) })
  else (false, mon)

/-- Health summary record returned by `Monitor.get_cluster_status`
(fields not consulted by any claim are kept as plain counts). -/
structure ClusterStatus where
  health : String
  up_osds : Nat
  total_osds : Nat
  total_pgs : Nat
  active_clean : Nat
  degraded : Nat
  num_pools : Nat
  epoch : Nat
deriving DecidableEq, Repr

/-- Embeds `Monitor.get_cluster_status`: health is `HEALTH_OK` exactly
when the count of `active+clean` PGs equals the total PG count; OSD
states are tallied but not consulted for health. -/
def getClusterStatus (mon : Monitor) : ClusterStatus :=
  let total_pgs := mon.pg_map.length
  let active_clean :=
    (mon.pg_map.filter (fun kv => decide (kv.2.state = PGState.activeClean))).length
  let degraded :=
    (mon.pg_map.filter (fun kv => decide (kv.2.state = PGState.activeDegraded))).length
  let up_osds :=
    (mon.osd_map.filter (fun kv => decide (kv.2.state = OSDAState.up))).length
  { health := if active_clean = total_pgs then "HEALTH_OK" else "HEALTH_WARN",
    up_osds := up_osds, total_osds := mon.osd_map.length,
    total_pgs := total_pgs, active_clean := active_clean, degraded := degraded,
    num_pools := mon.pools.length, epoch := mon.epoch }

/-- Storage key `"{pool_id}_{object_id}"` used by the OSD local store. -/
def storeKey (pool_id : Nat) (object_id : String) : String :=
  toString pool_id ++ "_" ++ object_id

/-- Embeds `OSD.store_object`: raises (here `none`) when the OSD is not
`up`, else durably writes the data and metadata blobs and reports
success. The `IoError → False` branch of the source is not modelled
(the local filesystem always succeeds in the embedding). -/
def storeObject (o : OSD) (pool_id : Nat) (object_id : String) (data : List Nat)
    (meta : ObjectMeta) : Option OSD :=
  if o.state = OSDAState.up then
    some { o with store := dictSet o.store (storeKey pool_id object_id) (data, meta) }
  else none

/-- Embeds `OSD.retrieve_object`: `none` when the OSD is not `up` or
the object is absent, else the stored bytes and metadata. -/
def retrieveObject (o : OSD) (pool_id : Nat) (object_id : String) :
    Option (List Nat × ObjectMeta) :=
  if o.state = OSDAState.up then dictFind o.store (storeKey pool_id object_id)
  else none

/-- First pool whose `name` matches, scanning `pools.values()` in
insertion order (the pool-resolution loop shared by the RADOS ops). -/
def findPool (pools : List (Nat × Pool)) (name : String) : Option Pool :=
  match pools with
  | [] => none
  | (_, p) :: rest => if p.name = name then some p else findPool rest name

/-- In-place mutation of the first pool whose `name` matches (the
Python code mutates the object returned by the resolution scan). -/
def updateFirstPool (pools : List (Nat × Pool)) (name : String) (f : Pool → Pool) :
    List (Nat × Pool) :=
  match pools with
  | [] => []
  | (k, p) :: rest =>
    if p.name = name then (k, f p) :: rest else (k, p) :: updateFirstPool rest name f

/-- Embeds `Pool.get_pg_id`: builtin string hash modulo `pg_num` (a
zero `pg_num` would raise `ZeroDivisionError` in Python; `Nat.mod`'s
`x % 0 = x` branch is unreachable for pools built by `create_pool`
with positive `pg_num`). -/
def getPgId (pool : Pool) (object_id : String) : Nat :=
  pyHash object_id % pool.pg_num

/-- Error outcomes of `RADOS.put_object` (raised as exceptions in the
source). -/
inductive PutError where
  | poolNotFound
  | pgMissing
  | pgInactive
  | replicationBelowMin
deriving DecidableEq, Repr

/-- Success record returned by `RADOS.put_object`. -/
structure PutResult where
  object_id : String
  pool : String
  pg_id : String
  replicas : List Nat
  size_bytes : Nat
deriving DecidableEq, Repr

/-- Metadata record assembled by `put_object` before the replica
writes (`now` stands for `datetime.now().isoformat()`). -/
def putMeta (pool : Pool) (object_id : String) (data : List Nat) (now : String) :
    ObjectMeta :=
  { object_id := object_id, pool_id := pool.pool_id, size_bytes := data.length,
    checksum := sha256 data, upload_time := now,
    pg_id := mkPgid pool.pool_id (getPgId pool object_id) }

/-- Replica-write loop of `put_object`: walk the acting set in order,
skip ids missing from the map, attempt each store (a raise from a
non-`up` OSD is caught and skipped), collect the successes in order
while threading the mutated OSD map. -/
def storeLoop (pool_id : Nat) (object_id : String) (data : List Nat) (meta : ObjectMeta) :
    List Nat → List (Nat × OSD) → List Nat × List (Nat × OSD)
  | [], m => ([], m)
  | i :: rest, m =>
    match dictFind m i with
    | none => storeLoop pool_id object_id data meta rest m
    | some o =>
      match storeObject o pool_id object_id data meta with
      | none => storeLoop pool_id object_id data meta rest m
      | some o2 =>
        let r := storeLoop pool_id object_id data meta rest (dictSet m i o2)
        (i :: r.1, r.2)

/-- Stage of `put_object` after the pool and PG are resolved: the
inactive check, the replica-write loop, the `min_size` threshold, and
on success the metadata bookkeeping. On `replicationBelowMin` the
partial replica writes persist (the source does not roll them back)
but the pool and PG metadata tables are left untouched. -/
def putObjectWithPg (mon : Monitor) (pool_name object_id : String) (data : List Nat)
    (now : String) (pool : Pool) (pg : PlacementGroup) :
    Except PutError PutResult × Monitor :=
  if pg.state = PGState.inactive then (Except.error PutError.pgInactive, mon)
  else
    let meta := putMeta pool object_id data now
    let sm := storeLoop pool.pool_id object_id data meta (actingSet pg) mon.osd_map
    if sm.1.length < pool.min_size then
      (Except.error PutError.replicationBelowMin, { mon with osd_map := sm.2 })
    else
      (Except.ok
        { object_id := object_id, pool := pool_name,
          pg_id := mkPgid pool.pool_id (getPgId pool object_id),
          replicas := sm.1, size_bytes := data.length },
        { mon with
          osd_map := sm.2,
          pools := updateFirstPool mon.pools pool_name
            (fun p => { p with objects := dictSet p.objects object_id meta }),
          pg_map := dictModify mon.pg_map (mkPgid pool.pool_id (getPgId pool object_id))
            (fun g => { g with objects := insertIfNew g.objects object_id }) })

/-- Stage of `put_object` after the pool is resolved: PG lookup by
`"{pool_id}.{pg_index}"`, failing `PgMissing` when absent. -/
def putObjectWithPool (mon : Monitor) (pool_name object_id : String) (data : List Nat)
    (now : String) (pool : Pool) : Except PutError PutResult × Monitor :=
  match dictFind mon.pg_map (mkPgid pool.pool_id (getPgId pool object_id)) with
  | none => (Except.error PutError.pgMissing, mon)
  | some pg => putObjectWithPg mon pool_name object_id data now pool pg

/-- Embeds `RADOS.put_object` (`now` stands for `datetime.now()`),
staged through `putObjectWithPool` / `putObjectWithPg` in source
order: pool resolution, PG lookup, inactive check, replica writes,
`min_size` threshold, metadata bookkeeping. -/
def putObject (mon : Monitor) (pool_name object_id : String) (data : List Nat)
    (now : String) : Except PutError PutResult × Monitor :=
  match findPool mon.pools pool_name with
  | none => (Except.error PutError.poolNotFound, mon)
  | some pool => putObjectWithPool mon pool_name object_id data now pool

/-- Read loop of `get_object`: walk the acting set in order, skip ids
missing from the map, return the first replica whose recomputed digest
matches the stored checksum. -/
def getLoop (m : List (Nat × OSD)) (pool_id : Nat) (object_id : String) :
    List Nat → Option (List Nat × ObjectMeta)
  | [] => none
  | i :: rest =>
    match dictFind m i with
    | none => getLoop m pool_id object_id rest
    | some o =>
      match retrieveObject o pool_id object_id with
      | none => getLoop m pool_id object_id rest
      | some (data, meta) =>
        if sha256 data = meta.checksum then some (data, meta)
        else getLoop m pool_id object_id rest

/-- Stage of `get_object` after the pool is resolved: unknown objects
yield `none`; a missing PG entry would raise `KeyError` in Python and
is unreachable when the metadata tables are consistent, embedded as
`none`. -/
def getObjectWithPool (mon : Monitor) (object_id : String) (pool : Pool) :
    Option (List Nat × ObjectMeta) :=
  if (dictFind pool.objects object_id).isSome then
    match dictFind mon.pg_map (mkPgid pool.pool_id (getPgId pool object_id)) with
    | none => none
    | some pg => getLoop mon.osd_map pool.pool_id object_id (actingSet pg)
  else none

/-- Embeds `RADOS.get_object`: `none` when the pool is missing or does
not know the object; otherwise fail over along the acting set. -/
def getObject (mon : Monitor) (pool_name object_id : String) :
    Option (List Nat × ObjectMeta) :=
  match findPool mon.pools pool_name with
  | none => none
  | some pool => getObjectWithPool mon object_id pool

/-- Projection of an Except to its success flag (used to state the
round-trip claim without naming the whole result record). -/
def exceptIsOk {ε α : Type} : Except ε α → Bool
  | Except.ok _ => true
  | Except.error _ => false

/-- Rack of the OSD registered under id `i`, when present. -/
def rackOf (m : List (Nat × OSD)) (i : Nat) : Option String :=
  (dictFind m i).map (fun o => o.rack)

/-- Topology skeleton of an OSD map: keys in order together with their
states. Placement reads the map only through this projection. -/
def topoOf (m : List (Nat × OSD)) : List (Nat × OSDAState) :=
  m.map (fun kv => (kv.1, kv.2.state))

/-- Placement-group assignments recorded on the OSD stored under `k`
(empty for a missing id). -/
def assignmentsOf (m : List (Nat × OSD)) (k : Nat) : List String :=
  match dictFind m k with
  | some o => o.pg_assignments
  | none => []

/-- The OSD registered under id `i` is currently `up` and sits in rack
`r` (the resolution the failure-domain buckets promise). -/
def upRackAt (m : List (Nat × OSD)) (i : Nat) (r : String) : Prop :=
  ∃ o, dictFind m i = some o ∧ o.state = OSDAState.up ∧ o.rack = r

/-- Coherence of a failure-domain map with an OSD map: bucket keys are
distinct and every bucket is a nonempty list of `up` OSDs of that rack.
`_build_failure_map` establishes this for the map it reads. -/
def domCoherent (m : List (Nat × OSD)) (ds : List (String × List Nat)) : Prop :=
  (ds.map Prod.fst).Nodup ∧ ∀ kv ∈ ds, kv.2 ≠ [] ∧ ∀ i ∈ kv.2, upRackAt m i kv.1

/-- The OSD registered under `i` is `up` and holds `(data, meta)` under
the local-store key for `(pid, oid)`. -/
def storedAt (m : List (Nat × OSD)) (pid : Nat) (oid : String) (data : List Nat)
    (meta : ObjectMeta) (i : Nat) : Prop :=
  ∃ o, dictFind m i = some o ∧ o.state = OSDAState.up ∧
    dictFind o.store (storeKey pid oid) = some (data, meta)

/-- Fresh `up` OSD with the given id and rack, as built by cluster
initialization (empty local store, no assignments). -/
def demoOsd (i : Nat) (r : String) : OSD :=
  { osd_id := i, rack := r, state := OSDAState.up, pg_assignments := [], store := [] }

/-- One-OSD cluster: `add_osd(osd 0 in rack r1)`. -/
def monA1 : Monitor := addOsd initMonitor (demoOsd 0 "r1")

/-- One-OSD cluster after `create_pool("p", size=1, pg_num=1)`. -/
def monA2 : Monitor := (createPool monA1 "p" 1 1).2

/-- One-OSD cluster after additionally `set_osd_state(0, "down")`. -/
def monA3 : Monitor := (setOsdState monA2 0 "down").2

/-- Two-OSD cluster (racks r1, r2). -/
def monB1 : Monitor := addOsd (addOsd initMonitor (demoOsd 0 "r1")) (demoOsd 1 "r2")

/-- Two-OSD cluster after `create_pool("p", size=1, pg_num=1)`; the
single PG maps to OSD 1. -/
def monB2 : Monitor := (createPool monB1 "p" 1 1).2

/-- Two-OSD cluster after additionally `set_osd_state(1, "down")`; the
PG re-maps to OSD 0. -/
def monB3 : Monitor := (setOsdState monB2 1 "down").2

/-- Three-OSD cluster (racks r1, r2, r3). -/
def monD1 : Monitor :=
  addOsd (addOsd (addOsd initMonitor (demoOsd 0 "r1")) (demoOsd 1 "r2")) (demoOsd 2 "r3")

/-- Three-OSD cluster after `create_pool("p", size=2, pg_num=1)`; the
single PG maps to OSDs 2 and 0. -/
def monD2 : Monitor := (createPool monD1 "p" 2 1).2

/-- Three-OSD cluster after additionally `set_osd_state(2, "down")`. -/
def monD3 : Monitor := (setOsdState monD2 2 "down").2

/-- Two-OSD cluster with a replicated pool (`size=2`, default
`min_size=2`, `pg_num=1`) used for the round-trip witness. -/
def monT2 : Monitor := (createPool monB1 "p" 2 1).2

/-- Single placement group of the handcrafted below-min witness state:
acting set `[0]`, degraded. -/
def pgW9 : PlacementGroup :=
  { pgid := "0.0", pool_id := 0, primary_osd := some 0, replica_osds := [],
    state := PGState.activeDegraded, objects := [] }

/-- Pool of the below-min witness state (`size=3`, `min_size=2`). -/
def poolW9 : Pool :=
  { pool_id := 0, name := "p", size := 3, min_size := 2, pg_num := 1, objects := [] }

/-- Cluster with a single `up` OSD but a pool requiring two replicas:
any put reaches the replica writes yet collects only one success. -/
def monW9 : Monitor :=
  { osd_map := [(0, demoOsd 0 "r1")], pg_map := [("0.0", pgW9)],
    pools := [(0, poolW9)], crushDomains := some [("r1", [0])], epoch := 1 }

theorem dictFind_dictSet_self {κ α : Type} [DecidableEq κ] (m : List (κ × α)) (k : κ)
    (v : α) : dictFind (dictSet m k v) k = some v := by
  induction m with
  | nil => simp [dictSet, dictFind]
  | cons kv rest ih =>
    by_cases h : kv.1 = k
    · simp [dictSet, dictFind, h]
    · simp [dictSet, dictFind, h, ih]

theorem dictFind_dictSet_ne {κ α : Type} [DecidableEq κ] (m : List (κ × α)) (k k' : κ)
    (v : α) (h : k' ≠ k) : dictFind (dictSet m k v) k' = dictFind m k' := by
  induction m with
  | nil => simp [dictSet, dictFind, Ne.symm h]
  | cons kv rest ih =>
    by_cases hk : kv.1 = k
    · subst hk
      simp [dictSet, dictFind, Ne.symm h]
    · simp only [dictSet, if_neg hk, dictFind]
      by_cases hk' : kv.1 = k'
      · simp [hk']
      · simp [hk', ih]

theorem dictFind_dictModify_self {κ α : Type} [DecidableEq κ] (m : List (κ × α)) (k : κ)
    (f : α → α) : dictFind (dictModify m k f) k = (dictFind m k).map f := by
  induction m with
  | nil => simp [dictModify, dictFind]
  | cons kv rest ih =>
    by_cases h : kv.1 = k
    · simp [dictModify, dictFind, h]
    · simp [dictModify, dictFind, h, ih]

theorem dictFind_dictModify_ne {κ α : Type} [DecidableEq κ] (m : List (κ × α)) (k k' : κ)
    (f : α → α) (h : k' ≠ k) : dictFind (dictModify m k f) k' = dictFind m k' := by
  induction m with
  | nil => simp [dictModify, dictFind]
  | cons kv rest ih =>
    by_cases hk : kv.1 = k
    · subst hk
      simp [dictModify, dictFind, Ne.symm h]
    · simp only [dictModify, if_neg hk, dictFind]
      by_cases hk' : kv.1 = k'
      · simp [hk']
      · simp [hk', ih]

theorem dictFind_eq_some_mem {κ α : Type} [DecidableEq κ] {m : List (κ × α)} {k : κ}
    {v : α} (h : dictFind m k = some v) : (k, v) ∈ m := by
  induction m with
  | nil => simp [dictFind] at h
  | cons kv rest ih =>
    simp only [dictFind] at h
    by_cases hk : kv.1 = k
    · rw [if_pos hk] at h
      injection h with h
      subst h
      exact List.mem_cons.mpr (Or.inl (by rw [← hk]))
    · rw [if_neg hk] at h
      exact List.mem_cons_of_mem _ (ih h)

theorem dictFind_eq_none_of_not_mem {κ α : Type} [DecidableEq κ] {m : List (κ × α)}
    {k : κ} (h : k ∉ m.map Prod.fst) : dictFind m k = none := by
  induction m with
  | nil => rfl
  | cons kv rest ih =>
    simp only [List.map_cons, List.mem_cons, not_or] at h
    have hk : kv.1 ≠ k := fun hh => h.1 hh.symm
    simp only [dictFind, if_neg hk, ih h.2]

theorem dictFind_of_mem_nodup {κ α : Type} [DecidableEq κ] {m : List (κ × α)} {k : κ}
    {v : α} (hnd : (m.map Prod.fst).Nodup) (h : (k, v) ∈ m) : dictFind m k = some v := by
  induction m with
  | nil => cases h
  | cons kv rest ih =>
    simp only [List.map_cons, List.nodup_cons] at hnd
    rcases List.mem_cons.mp h with rfl | hm
    · simp [dictFind]
    · have hk : kv.1 ≠ k := by
        intro hh
        exact hnd.1 (hh ▸ List.mem_map.mpr ⟨(k, v), hm, rfl⟩)
      simp only [dictFind, if_neg hk]
      exact ih hnd.2 hm

theorem updatePgMappings_pools (mon : Monitor) :
    (updatePgMappings mon).pools = mon.pools := by
  unfold updatePgMappings
  split
  · rfl
  · split <;> rfl

theorem updatePgMappings_epoch (mon : Monitor) :
    (updatePgMappings mon).epoch = mon.epoch := by
  unfold updatePgMappings
  split
  · rfl
  · split <;> rfl

theorem updatePgMappings_crushDomains (mon : Monitor) :
    (updatePgMappings mon).crushDomains = mon.crushDomains := by
  unfold updatePgMappings
  split
  · rfl
  · split <;> rfl

/-- C5: the placement function is deterministic: on a fixed failure
domain snapshot and OSD map, two invocations of `select_osds` with the
same `pgid` and replica count return identical lists, whatever the
incoming global PRNG states were (`random.seed(pgid)` overwrites them). -/
theorem select_osds_deterministic (domains : List (String × List Nat))
    (m : List (Nat × OSD)) (pgid : String) (n g0 g1 : Nat) :
    selectOsds domains m pgid n g0 = selectOsds domains m pgid n g1 := rfl

/-- C1 counterexample: on a reachable one-OSD cluster, a successful
`create_pool` and a successful `set_osd_state` both leave the epoch
exactly where it was, contradicting the claimed strict increase. -/
theorem epoch_not_increased_cex :
    ¬ monA1.epoch < (createPool monA1 "q" 3 1).2.epoch ∧
      (setOsdState monA2 0 "down").1 = true ∧
      ¬ monA2.epoch < (setOsdState monA2 0 "down").2.epoch := by
  decide

/-- C1 amended: `create_pool` and `set_osd_state` never change the
epoch; among the monitor topology operations only `add_osd` (and
`remove_osd`) bump it. -/
theorem epoch_unchanged_create_pool_set_osd_state :
    (∀ (mon : Monitor) (name : String) (size pg_num : Nat),
        ((createPool mon name size pg_num).2).epoch = mon.epoch) ∧
      (∀ (mon : Monitor) (i : Nat) (s : String),
        ((setOsdState mon i s).2).epoch = mon.epoch) ∧
      (∀ (mon : Monitor) (o : OSD), (addOsd mon o).epoch = mon.epoch + 1) := by
  refine ⟨?_, ?_, ?_⟩
  · intro mon name size pg_num
    unfold createPool
    simp [updatePgMappings_epoch]
  · intro mon i s
    unfold setOsdState
    split
    · simp [updatePgMappings_epoch]
    · rfl
  · intro mon o
    unfold addOsd
    simp [updatePgMappings_epoch]

theorem filter_length_eq_iff_all {α : Type} (p : α → Bool) (l : List α) :
    (l.filter p).length = l.length ↔ ∀ a ∈ l, p a := List.filter_length_eq_length

/-- C2 counterexample: on a reachable three-OSD cluster whose single PG
is `active+clean` but whose OSD 2 is `down`, `get_cluster_status`
reports `HEALTH_OK`, so health is not equivalent to "every PG clean and
every OSD up". -/
theorem health_ignores_osd_states_cex :
    ¬ ((getClusterStatus monD3).health = "HEALTH_OK" ↔
        ((∀ kv ∈ monD3.pg_map, kv.2.state = PGState.activeClean) ∧
          ∀ kv ∈ monD3.osd_map, kv.2.state = OSDAState.up)) := by
  decide

/-- C2 amended: `cluster_status` reports `HEALTH_OK` iff every PG is
`active+clean`; OSD states are reported but never consulted for the
health verdict. -/
theorem cluster_status_health_iff (mon : Monitor) :
    (getClusterStatus mon).health = "HEALTH_OK" ↔
      ∀ kv ∈ mon.pg_map, kv.2.state = PGState.activeClean := by
  unfold getClusterStatus
  constructor
  · intro h
    by_cases hc :
        (mon.pg_map.filter (fun kv => decide (kv.2.state = PGState.activeClean))).length =
          mon.pg_map.length
    · intro kv hkv
      have := (filter_length_eq_iff_all _ _).mp hc kv hkv
      exact of_decide_eq_true this
    · simp only [if_neg hc] at h
      exact absurd h (by decide)
  · intro h
    have hc := (filter_length_eq_iff_all
      (fun kv => decide (kv.2.state = PGState.activeClean)) mon.pg_map).mpr
      (fun a ha => decide_eq_true (h a ha))
    simp [hc]

/-- C4 counterexample: creating a pool named "p" twice succeeds both
times — the second call returns the fresh id 1 and the cluster ends up
with two pools named "p" — instead of failing with `DuplicatePool`. -/
theorem create_pool_duplicate_cex :
    (createPool (createPool monB1 "p" 1 1).2 "p" 1 1).1 = 1 ∧
      ((createPool (createPool monB1 "p" 1 1).2 "p" 1 1).2.pools.filter
        (fun kv => decide (kv.2.name = "p"))).length = 2 := by
  decide

/-- C4 amended: `create_pool` performs no duplicate-name check: for any
state it returns the fresh id `len(pools)` and registers a new pool
record under that id (with the default `min_size = 2`), even when an
existing pool already bears the same name. -/
theorem create_pool_always_appends (mon : Monitor) (name : String) (size pg_num : Nat) :
    (createPool mon name size pg_num).1 = mon.pools.length ∧
      dictFind ((createPool mon name size pg_num).2).pools mon.pools.length =
        some { pool_id := mon.pools.length, name := name, size := size, min_size := 2,
               pg_num := pg_num, objects := [] } := by
  constructor
  · rfl
  · unfold createPool
    simp only [updatePgMappings_pools]
    exact dictFind_dictSet_self _ _ _

theorem pickOut_perm {α : Type} (x : α) (xs : List α) (k : Nat) :
    List.Perm ((pickOut x xs k).1 :: (pickOut x xs k).2) (x :: xs) := by
  induction k generalizing x xs with
  | zero => simp [pickOut]
  | succ k ih =>
    cases xs with
    | nil => simp [pickOut]
    | cons y ys =>
      simp only [pickOut]
      exact (List.Perm.swap x _ _).trans ((ih y ys).cons x)

theorem shuffleAux_perm {α : Type} :
    ∀ (fuel : Nat) (l : List α) (g : Nat), fuel = l.length →
      List.Perm (shuffleAux fuel l g).1 l := by
  intro fuel
  induction fuel with
  | zero =>
    intro l g h
    cases l with
    | nil => simp [shuffleAux]
    | cons x xs => simp at h
  | succ fuel ih =>
    intro l g h
    cases l with
    | nil => simp [shuffleAux]
    | cons x xs =>
      simp only [shuffleAux]
      have hp := pickOut_perm x xs (g % (xs.length + 1))
      have hlen : fuel = (pickOut x xs (g % (xs.length + 1))).2.length := by
        have := hp.length_eq
        simp only [List.length_cons] at this h
        omega
      exact ((ih _ (lcg g) hlen).cons _).trans hp

theorem modelShuffle_perm {α : Type} (l : List α) (g : Nat) :
    List.Perm (modelShuffle l g).1 l :=
  shuffleAux_perm l.length l g rfl

theorem modelChoice_mem (l : List Nat) (g : Nat) (h : l ≠ []) :
    (modelChoice l g).1 ∈ l := by
  have hlt : g % l.length < l.length :=
    Nat.mod_lt _ (List.length_pos.mpr h)
  simp only [modelChoice]
  rw [List.getD_eq_getElem l 0 hlt]
  exact List.getElem_mem hlt

theorem addToDomain_keys (ds : List (String × List Nat)) (r : String) (i : Nat) :
    (addToDomain ds r i).map Prod.fst =
      if r ∈ ds.map Prod.fst then ds.map Prod.fst else ds.map Prod.fst ++ [r] := by
  induction ds with
  | nil => simp [addToDomain]
  | cons kv rest ih =>
    by_cases h : kv.1 = r
    · subst h
      cases kv
      simp [addToDomain]
    · cases kv with
    | mk r0 l0 =>
      simp only at h
      simp only [addToDomain, if_neg h, List.map_cons, List.mem_cons, ih]
      by_cases hr : r ∈ rest.map Prod.fst
      · simp [hr, Ne.symm h]
      · simp [hr, Ne.symm h]

theorem addToDomain_vals {m : List (Nat × OSD)} (ds : List (String × List Nat))
    (r : String) (i : Nat) :
    (∀ kv ∈ ds, kv.2 ≠ [] ∧ ∀ j ∈ kv.2, upRackAt m j kv.1) → upRackAt m i r →
      ∀ kv ∈ addToDomain ds r i, kv.2 ≠ [] ∧ ∀ j ∈ kv.2, upRackAt m j kv.1 := by
  induction ds with
  | nil =>
    intro _ hi kv hkv
    simp only [addToDomain, List.mem_singleton] at hkv
    subst hkv
    refine ⟨by simp, ?_⟩
    intro j hj
    simp only [List.mem_singleton] at hj
    subst hj
    exact hi
  | cons kv0 rest ih =>
    obtain ⟨r0, l0⟩ := kv0
    intro hval hi kv hkv
    by_cases h : r0 = r
    · subst h
      simp only [addToDomain, if_pos rfl] at hkv
      rcases List.mem_cons.mp hkv with rfl | hm
      · refine ⟨by simp, ?_⟩
        intro j hj
        rcases List.mem_append.mp hj with hj | hj
        · exact (hval (r0, l0) (List.mem_cons_self _ _)).2 j hj
        · simp only [List.mem_singleton] at hj
          subst hj
          exact hi
      · exact hval kv (List.mem_cons_of_mem _ hm)
    · simp only [addToDomain, if_neg h] at hkv
      rcases List.mem_cons.mp hkv with rfl | hm
      · exact hval _ (List.mem_cons_self _ _)
      · exact ih (fun kv2 hkv2 => hval kv2 (List.mem_cons_of_mem _ hkv2)) hi kv hm

theorem addToDomain_coherent {m : List (Nat × OSD)} {ds : List (String × List Nat)}
    {r : String} {i : Nat} (hc : domCoherent m ds) (hi : upRackAt m i r) :
    domCoherent m (addToDomain ds r i) := by
  obtain ⟨hnd, hval⟩ := hc
  constructor
  · rw [addToDomain_keys]
    by_cases hr : r ∈ ds.map Prod.fst
    · simpa [hr] using hnd
    · rw [if_neg hr]
      rw [List.nodup_append]
      exact ⟨hnd, List.nodup_singleton r, by simpa using fun hx => hr hx⟩
  · exact addToDomain_vals ds r i hval hi

theorem buildFailureMapAux_coherent {m : List (Nat × OSD)} :
    ∀ (osds : List (Nat × OSD)) (ds : List (String × List Nat)),
      (∀ kv ∈ osds, kv.2.state = OSDAState.up → upRackAt m kv.2.osd_id kv.2.rack) →
      domCoherent m ds → domCoherent m (buildFailureMapAux ds osds) := by
  intro osds
  induction osds with
  | nil => intro ds _ hc; exact hc
  | cons kv rest ih =>
    intro ds hup hc
    simp only [buildFailureMapAux]
    by_cases h : kv.2.state = OSDAState.up
    · rw [if_pos h]
      exact ih _ (fun kv2 hkv2 => hup kv2 (List.mem_cons_of_mem _ hkv2))
        (addToDomain_coherent hc (hup kv (List.mem_cons_self _ _) h))
    · rw [if_neg h]
      exact ih _ (fun kv2 hkv2 => hup kv2 (List.mem_cons_of_mem _ hkv2)) hc

theorem buildFailureMap_coherent {m : List (Nat × OSD)}
    (hwf1 : ∀ kv ∈ m, kv.2.osd_id = kv.1) (hwf2 : (m.map Prod.fst).Nodup) :
    domCoherent m (buildFailureMap m) := by
  refine buildFailureMapAux_coherent m [] ?_ ⟨List.nodup_nil, by simp⟩
  intro kv hkv hup
  refine ⟨kv.2, ?_, hup, rfl⟩
  rw [hwf1 kv hkv]
  exact dictFind_of_mem_nodup hwf2 (by simpa using hkv)

theorem addToDomain_keys_sub (ds : List (String × List Nat)) (r : String) (i : Nat) :
    ds.map Prod.fst ⊆ (addToDomain ds r i).map Prod.fst := by
  rw [addToDomain_keys]
  by_cases hr : r ∈ ds.map Prod.fst
  · simp [hr]
  · rw [if_neg hr]
    exact fun x hx => List.mem_append_left _ hx

theorem addToDomain_keys_self (ds : List (String × List Nat)) (r : String) (i : Nat) :
    r ∈ (addToDomain ds r i).map Prod.fst := by
  rw [addToDomain_keys]
  by_cases hr : r ∈ ds.map Prod.fst
  · simpa [hr] using hr
  · simp [hr]

theorem buildFailureMapAux_keys_sub :
    ∀ (osds : List (Nat × OSD)) (ds : List (String × List Nat)),
      ds.map Prod.fst ⊆ (buildFailureMapAux ds osds).map Prod.fst := by
  intro osds
  induction osds with
  | nil => intro ds x hx; exact hx
  | cons kv rest ih =>
    intro ds x hx
    simp only [buildFailureMapAux]
    by_cases h : kv.2.state = OSDAState.up
    · rw [if_pos h]
      exact ih _ (addToDomain_keys_sub _ _ _ hx)
    · rw [if_neg h]
      exact ih _ hx

theorem buildFailureMap_rack_mem :
    ∀ (osds : List (Nat × OSD)) (ds : List (String × List Nat)) (kv : Nat × OSD),
      kv ∈ osds → kv.2.state = OSDAState.up →
      kv.2.rack ∈ (buildFailureMapAux ds osds).map Prod.fst := by
  intro osds
  induction osds with
  | nil => intro ds kv h; cases h
  | cons kv0 rest ih =>
    intro ds kv hkv hup
    simp only [buildFailureMapAux]
    rcases List.mem_cons.mp hkv with rfl | hm
    · rw [if_pos hup]
      exact buildFailureMapAux_keys_sub rest _ (addToDomain_keys_self _ _ _)
    · by_cases h : kv0.2.state = OSDAState.up
      · rw [if_pos h]
        exact ih _ kv hm hup
      · rw [if_neg h]
        exact ih _ kv hm hup

theorem buildFailureMap_keys_iff {m : List (Nat × OSD)}
    (hwf1 : ∀ kv ∈ m, kv.2.osd_id = kv.1) (hwf2 : (m.map Prod.fst).Nodup) (r : String) :
    r ∈ (buildFailureMap m).map Prod.fst ↔
      ∃ kv ∈ m, kv.2.state = OSDAState.up ∧ kv.2.rack = r := by
  constructor
  · intro h
    obtain ⟨⟨r0, l0⟩, hmem, hfst⟩ := List.mem_map.mp h
    simp only at hfst
    subst hfst
    obtain ⟨hne, hall⟩ := (buildFailureMap_coherent hwf1 hwf2).2 _ hmem
    obtain ⟨i, hi⟩ := List.exists_mem_of_ne_nil _ hne
    obtain ⟨o, ho, hup, hrk⟩ := hall i hi
    exact ⟨(i, o), dictFind_eq_some_mem ho, hup, hrk⟩
  · intro ⟨kv, hkv, hup, hrk⟩
    subst hrk
    exact buildFailureMap_rack_mem m [] kv hkv hup

theorem selectOsds_eq (domains : List (String × List Nat)) (m : List (Nat × OSD))
    (pgid : String) (n g0 : Nat) :
    selectOsds domains m pgid n g0 =
      (let sh := modelShuffle (domains.map Prod.fst) (strSeed pgid)
       let ph := phase1 domains m n sh.1 [] [] sh.2
       if ph.1.length < n then
         ph.1 ++ (modelShuffle ((m.map Prod.fst).filter
             (fun i => osdUp m i && decide (i ∉ ph.1))) ph.2.2).1.take (n - ph.1.length)
       else ph.1).take n := rfl

theorem phase1_spec (domains : List (String × List Nat)) (m : List (Nat × OSD)) (n : Nat) :
    ∀ (racks : List String) (sel : List Nat) (used : List String) (g : Nat),
      racks.Nodup →
      (∀ r ∈ racks, r ∉ used) →
      (∀ r ∈ racks, ∃ l, dictFind domains r = some l ∧ l ≠ [] ∧ ∀ i ∈ l, upRackAt m i r) →
      List.Forall₂ (upRackAt m) sel used →
      used.Nodup →
      sel.length ≤ n →
      List.Forall₂ (upRackAt m) (phase1 domains m n racks sel used g).1
          (phase1 domains m n racks sel used g).2.1 ∧
        (phase1 domains m n racks sel used g).2.1.Nodup ∧
        (phase1 domains m n racks sel used g).1.length = min n (sel.length + racks.length) := by
  intro racks
  induction racks with
  | nil =>
    intro sel used g _ _ _ hF hU hlen
    simp only [phase1]
    exact ⟨hF, hU, by simpa using (Nat.min_eq_right hlen).symm⟩
  | cons rack rest ih =>
    intro sel used g hnd hdisj hcoh hF hU hlen
    obtain ⟨hrack_rest, hnd_rest⟩ := List.nodup_cons.mp hnd
    by_cases hstop : n ≤ sel.length
    · simp only [phase1]
      rw [if_pos hstop]
      have hsn : sel.length = n := le_antisymm hlen hstop
      refine ⟨hF, hU, ?_⟩
      simp only [List.length_cons]
      omega
    · obtain ⟨l, hfind, hne, hall⟩ := hcoh rack (List.mem_cons_self _ _)
      have hfilter : (((dictFind domains rack).getD []).filter (fun i => osdUp m i)) = l := by
        rw [hfind]
        simp only [Option.getD_some]
        apply List.filter_eq_self.mpr
        intro a ha
        obtain ⟨o, ho, hup, _⟩ := hall a ha
        simp [osdUp, ho, hup]
      have hcond : (((dictFind domains rack).getD []).filter (fun i => osdUp m i)) ≠ [] ∧
          rack ∉ used := ⟨hfilter ▸ hne, hdisj rack (List.mem_cons_self _ _)⟩
      simp only [phase1]
      rw [if_neg hstop, if_pos hcond, hfilter]
      have hpickR : upRackAt m (modelChoice l g).1 rack := hall _ (modelChoice_mem l g hne)
      have hF2 : List.Forall₂ (upRackAt m) (sel ++ [(modelChoice l g).1]) (used ++ [rack]) :=
        List.rel_append hF (List.Forall₂.cons hpickR List.Forall₂.nil)
      have hU2 : (used ++ [rack]).Nodup := by
        rw [List.nodup_append]
        refine ⟨hU, List.nodup_singleton _, ?_⟩
        intro a ha hb
        simp only [List.mem_singleton] at hb
        subst hb
        exact hdisj a (List.mem_cons_self _ _) ha
      have hdisj2 : ∀ r ∈ rest, r ∉ used ++ [rack] := by
        intro r hr hmem
        rcases List.mem_append.mp hmem with h1 | h2
        · exact hdisj r (List.mem_cons_of_mem _ hr) h1
        · simp only [List.mem_singleton] at h2
          subst h2
          exact hrack_rest hr
      have hcoh2 : ∀ r ∈ rest, ∃ l2, dictFind domains r = some l2 ∧ l2 ≠ [] ∧
          ∀ i ∈ l2, upRackAt m i r :=
        fun r hr => hcoh r (List.mem_cons_of_mem _ hr)
      have hlen2 : (sel ++ [(modelChoice l g).1]).length ≤ n := by
        simp only [List.length_append, List.length_singleton]
        omega
      obtain ⟨hF3, hU3, hL3⟩ := ih (sel ++ [(modelChoice l g).1]) (used ++ [rack])
        (modelChoice l g).2 hnd_rest hdisj2 hcoh2 hF2 hU2 hlen2
      refine ⟨hF3, hU3, ?_⟩
      rw [hL3]
      simp only [List.length_append, List.length_cons, List.length_nil]
      omega

theorem forall2_mem_left {α β : Type} {P : α → β → Prop} :
    ∀ {l1 : List α} {l2 : List β}, List.Forall₂ P l1 l2 → ∀ {a}, a ∈ l1 → ∃ b ∈ l2, P a b := by
  intro l1 l2 h
  induction h with
  | nil => intro a ha; cases ha
  | @cons x y t1 t2 h1 _ ih =>
    intro a ha
    rcases List.mem_cons.mp ha with rfl | hm
    · exact ⟨y, List.mem_cons_self _ _, h1⟩
    · obtain ⟨b, hb, hPb⟩ := ih hm
      exact ⟨b, List.mem_cons_of_mem _ hb, hPb⟩

theorem forall2_nodup_pairwise {m : List (Nat × OSD)} :
    ∀ {sel : List Nat} {used : List String}, List.Forall₂ (upRackAt m) sel used →
      used.Nodup → List.Pairwise (fun a b => rackOf m a ≠ rackOf m b) sel := by
  intro sel used hF
  induction hF with
  | nil => intro _; exact List.Pairwise.nil
  | @cons a r sel' used' hR hF2 ih =>
    intro hU
    obtain ⟨hrnot, hU2⟩ := List.nodup_cons.mp hU
    refine List.Pairwise.cons ?_ (ih hU2)
    intro b hb
    obtain ⟨o, ho, _, hrk⟩ := hR
    obtain ⟨r', hr', hRb⟩ := forall2_mem_left hF2 hb
    obtain ⟨o', ho', _, hrk'⟩ := hRb
    have ha : rackOf m a = some r := by simp [rackOf, ho, hrk]
    have hb2 : rackOf m b = some r' := by simp [rackOf, ho', hrk']
    rw [ha, hb2]
    intro hEq
    injection hEq with hEq
    exact hrnot (hEq ▸ hr')

/-- C6: rack diversity of `select_osds` on a coherent snapshot (the
failure-domain map built by `_build_failure_map` from the same OSD
map): the first `min(n, rack_count)` selected OSDs sit in pairwise
distinct racks, where `rack_count` — the length of the failure-domain
map — is exactly the number of racks containing at least one `up` OSD
(first two conjuncts). -/
theorem select_osds_rack_diversity (m : List (Nat × OSD)) (pgid : String) (n g0 : Nat)
    (hwf1 : ∀ kv ∈ m, kv.2.osd_id = kv.1) (hwf2 : (m.map Prod.fst).Nodup) :
    (∀ r, r ∈ (buildFailureMap m).map Prod.fst ↔
        ∃ kv ∈ m, kv.2.state = OSDAState.up ∧ kv.2.rack = r) ∧
      ((buildFailureMap m).map Prod.fst).Nodup ∧
      List.Pairwise (fun a b => rackOf m a ≠ rackOf m b)
        ((selectOsds (buildFailureMap m) m pgid n g0).take
          (min n (buildFailureMap m).length)) := by
  have hco := buildFailureMap_coherent hwf1 hwf2
  refine ⟨buildFailureMap_keys_iff hwf1 hwf2, hco.1, ?_⟩
  have hperm : List.Perm (modelShuffle ((buildFailureMap m).map Prod.fst) (strSeed pgid)).1
      ((buildFailureMap m).map Prod.fst) := modelShuffle_perm _ _
  have hnd : (modelShuffle ((buildFailureMap m).map Prod.fst) (strSeed pgid)).1.Nodup :=
    hperm.nodup_iff.mpr hco.1
  have hcoh : ∀ r ∈ (modelShuffle ((buildFailureMap m).map Prod.fst) (strSeed pgid)).1,
      ∃ l, dictFind (buildFailureMap m) r = some l ∧ l ≠ [] ∧ ∀ i ∈ l, upRackAt m i r := by
    intro r hr
    have hrk : r ∈ (buildFailureMap m).map Prod.fst := hperm.mem_iff.mp hr
    obtain ⟨⟨r0, l⟩, hmem, hfst⟩ := List.mem_map.mp hrk
    simp only at hfst
    subst hfst
    exact ⟨l, dictFind_of_mem_nodup hco.1 hmem, (hco.2 _ hmem).1, (hco.2 _ hmem).2⟩
  obtain ⟨hF, hU, hL⟩ := phase1_spec (buildFailureMap m) m n
    (modelShuffle ((buildFailureMap m).map Prod.fst) (strSeed pgid)).1 [] []
    (modelShuffle ((buildFailureMap m).map Prod.fst) (strSeed pgid)).2
    hnd (by simp) hcoh List.Forall₂.nil List.nodup_nil (Nat.zero_le n)
  have hlen : (phase1 (buildFailureMap m) m n
      (modelShuffle ((buildFailureMap m).map Prod.fst) (strSeed pgid)).1 [] []
      (modelShuffle ((buildFailureMap m).map Prod.fst) (strSeed pgid)).2).1.length =
      min n (buildFailureMap m).length := by
    rw [hL, hperm.length_eq]
    simp
  have hsel : (selectOsds (buildFailureMap m) m pgid n g0).take
      (min n (buildFailureMap m).length) =
      (phase1 (buildFailureMap m) m n
        (modelShuffle ((buildFailureMap m).map Prod.fst) (strSeed pgid)).1 [] []
        (modelShuffle ((buildFailureMap m).map Prod.fst) (strSeed pgid)).2).1 := by
    rw [selectOsds_eq]
    simp only [List.take_take]
    rw [Nat.min_eq_left (Nat.min_le_left n (buildFailureMap m).length)]
    by_cases hc : (phase1 (buildFailureMap m) m n
        (modelShuffle ((buildFailureMap m).map Prod.fst) (strSeed pgid)).1 [] []
        (modelShuffle ((buildFailureMap m).map Prod.fst) (strSeed pgid)).2).1.length < n
    · rw [if_pos hc, ← hlen, List.take_left]
    · rw [if_neg hc, ← hlen, List.take_length]
  rw [hsel]
  exact forall2_nodup_pairwise hF hU

theorem select_osds_rack_diversity_witness :
    (∀ kv ∈ monB1.osd_map, kv.2.osd_id = kv.1) ∧
      ((monB1.osd_map.map Prod.fst).Nodup) ∧
      List.Pairwise (fun a b => rackOf monB1.osd_map a ≠ rackOf monB1.osd_map b)
        ((selectOsds (buildFailureMap monB1.osd_map) monB1.osd_map "0.0" 2 0).take
          (min 2 (buildFailureMap monB1.osd_map).length)) :=
  ⟨by decide, by decide,
    (select_osds_rack_diversity monB1.osd_map "0.0" 2 0 (by decide) (by decide)).2.2⟩

theorem phase1_sel_up (domains : List (String × List Nat)) (m : List (Nat × OSD)) (n : Nat) :
    ∀ (racks : List String) (sel : List Nat) (used : List String) (g : Nat),
      (∀ i ∈ sel, osdUp m i = true) →
      ∀ i ∈ (phase1 domains m n racks sel used g).1, osdUp m i = true := by
  intro racks
  induction racks with
  | nil =>
    intro sel used g hsel
    simpa [phase1] using hsel
  | cons rack rest ih =>
    intro sel used g hsel
    simp only [phase1]
    by_cases hstop : n ≤ sel.length
    · rw [if_pos hstop]
      exact hsel
    · rw [if_neg hstop]
      by_cases hcond : (((dictFind domains rack).getD []).filter (fun i => osdUp m i)) ≠ [] ∧
          rack ∉ used
      · rw [if_pos hcond]
        apply ih
        intro i hi
        rcases List.mem_append.mp hi with h1 | h2
        · exact hsel i h1
        · simp only [List.mem_singleton] at h2
          subst h2
          exact (List.mem_filter.mp (modelChoice_mem _ g hcond.1)).2
      · rw [if_neg hcond]
        exact ih sel used g hsel

theorem selectOsds_mem_up (domains : List (String × List Nat)) (m : List (Nat × OSD))
    (pgid : String) (n g0 : Nat) :
    ∀ i ∈ selectOsds domains m pgid n g0, osdUp m i = true := by
  intro i hi
  rw [selectOsds_eq] at hi
  simp only at hi
  have hi2 := List.take_subset _ _ hi
  by_cases hc : (phase1 domains m n (modelShuffle (domains.map Prod.fst) (strSeed pgid)).1
      [] [] (modelShuffle (domains.map Prod.fst) (strSeed pgid)).2).1.length < n
  · rw [if_pos hc] at hi2
    rcases List.mem_append.mp hi2 with h1 | h2
    · exact phase1_sel_up domains m n _ [] [] _ (by simp) i h1
    · have h3 := List.take_subset _ _ h2
      have h4 := (modelShuffle_perm _ _).mem_iff.mp h3
      have h5 := (List.mem_filter.mp h4).2
      exact (Bool.and_eq_true _ _ |>.mp h5).1
  · rw [if_neg hc] at hi2
    exact phase1_sel_up domains m n _ [] [] _ (by simp) i hi2

theorem selectOsds_up_isSome {domains : List (String × List Nat)} {m : List (Nat × OSD)}
    {pgid : String} {n g0 : Nat} {i : Nat} (hi : i ∈ selectOsds domains m pgid n g0) :
    ∃ o, dictFind m i = some o ∧ o.state = OSDAState.up := by
  have := selectOsds_mem_up domains m pgid n g0 i hi
  unfold osdUp at this
  cases ho : dictFind m i with
  | none => rw [ho] at this; cases this
  | some o =>
    rw [ho] at this
    exact ⟨o, rfl, of_decide_eq_true this⟩

theorem selectOsds_nil_no_up (domains : List (String × List Nat)) (m : List (Nat × OSD))
    (pgid : String) (n g0 : Nat) (h : selectOsds domains m pgid n g0 = [])
    (hn : 1 ≤ n) : ∀ i, osdUp m i = false := by
  intro i
  rw [selectOsds_eq] at h
  simp only at h
  rcases List.take_eq_nil_iff.mp h with hn0 | h2
  · omega
  · by_cases hc : (phase1 domains m n (modelShuffle (domains.map Prod.fst) (strSeed pgid)).1
        [] [] (modelShuffle (domains.map Prod.fst) (strSeed pgid)).2).1.length < n
    · rw [if_pos hc] at h2
      obtain ⟨hph, hpad⟩ := List.append_eq_nil.mp h2
      rcases List.take_eq_nil_iff.mp hpad with hz | hsh
      · rw [hph] at hc hz
        simp only [List.length_nil] at hc hz
        exfalso
        omega
      · have hav : ((m.map Prod.fst).filter
            (fun j => osdUp m j && decide (j ∉ (phase1 domains m n
              (modelShuffle (domains.map Prod.fst) (strSeed pgid)).1 [] []
              (modelShuffle (domains.map Prod.fst) (strSeed pgid)).2).1))) = [] := by
          have hp := modelShuffle_perm ((m.map Prod.fst).filter
            (fun j => osdUp m j && decide (j ∉ (phase1 domains m n
              (modelShuffle (domains.map Prod.fst) (strSeed pgid)).1 [] []
              (modelShuffle (domains.map Prod.fst) (strSeed pgid)).2).1)))
            (phase1 domains m n (modelShuffle (domains.map Prod.fst) (strSeed pgid)).1 [] []
              (modelShuffle (domains.map Prod.fst) (strSeed pgid)).2).2.2
          rw [hsh] at hp
          exact (hp.symm.eq_nil)
        by_cases hmem : i ∈ m.map Prod.fst
        · by_contra hne
          have hup : osdUp m i = true := by
            cases hu : osdUp m i
            · exact absurd hu hne
            · rfl
          have : i ∈ ((m.map Prod.fst).filter
              (fun j => osdUp m j && decide (j ∉ (phase1 domains m n
                (modelShuffle (domains.map Prod.fst) (strSeed pgid)).1 [] []
                (modelShuffle (domains.map Prod.fst) (strSeed pgid)).2).1))) := by
            apply List.mem_filter.mpr
            refine ⟨hmem, ?_⟩
            rw [hup, hph]
            simp
          rw [hav] at this
          cases this
        · unfold osdUp
          rw [dictFind_eq_none_of_not_mem hmem]
    · rw [if_neg hc] at h2
      rw [h2] at hc
      simp only [List.length_nil] at hc
      exfalso
      omega

theorem selectOsds_length_le (domains : List (String × List Nat)) (m : List (Nat × OSD))
    (pgid : String) (n g0 : Nat) : (selectOsds domains m pgid n g0).length ≤ n := by
  rw [selectOsds_eq]
  simp only
  exact List.length_take_le _ _

theorem dictFind_state_congr :
    ∀ {m1 m2 : List (Nat × OSD)}, topoOf m1 = topoOf m2 →
      ∀ i, (dictFind m1 i).map (fun o => o.state) = (dictFind m2 i).map (fun o => o.state) := by
  intro m1
  induction m1 with
  | nil =>
    intro m2 h i
    cases m2 with
    | nil => rfl
    | cons kv2 r2 => simp [topoOf] at h
  | cons kv r1 ih =>
    intro m2 h i
    cases m2 with
    | nil => simp [topoOf] at h
    | cons kv2 r2 =>
      simp only [topoOf, List.map_cons, List.cons.injEq, Prod.mk.injEq] at h
      obtain ⟨⟨h1, h2⟩, h3⟩ := h
      show ((if kv.1 = i then some kv.2 else dictFind r1 i).map (fun o => o.state)) =
        ((if kv2.1 = i then some kv2.2 else dictFind r2 i).map (fun o => o.state))
      by_cases hk : kv.1 = i
      · rw [if_pos hk, if_pos (h1 ▸ hk)]
        simp [h2]
      · rw [if_neg hk, if_neg (h1 ▸ hk)]
        exact ih h3 i

theorem osdUp_congr {m1 m2 : List (Nat × OSD)} (h : topoOf m1 = topoOf m2) (i : Nat) :
    osdUp m1 i = osdUp m2 i := by
  have hd := dictFind_state_congr h i
  unfold osdUp
  cases h1 : dictFind m1 i with
  | none =>
    cases h2 : dictFind m2 i with
    | none => rfl
    | some o2 => rw [h1, h2] at hd; simp at hd
  | some o1 =>
    cases h2 : dictFind m2 i with
    | none => rw [h1, h2] at hd; simp at hd
    | some o2 =>
      rw [h1, h2] at hd
      simp only [Option.map_some', Option.some.injEq] at hd
      simp [hd]

theorem keys_congr {m1 m2 : List (Nat × OSD)} (h : topoOf m1 = topoOf m2) :
    m1.map Prod.fst = m2.map Prod.fst := by
  have e : ∀ m : List (Nat × OSD), m.map Prod.fst = (topoOf m).map Prod.fst := by
    intro m
    simp [topoOf, List.map_map]
  rw [e m1, e m2, h]

theorem dictFind_isSome_congr {m1 m2 : List (Nat × OSD)} (h : topoOf m1 = topoOf m2)
    (i : Nat) : (dictFind m1 i).isSome = (dictFind m2 i).isSome := by
  have hd := dictFind_state_congr h i
  cases h1 : dictFind m1 i with
  | none =>
    cases h2 : dictFind m2 i with
    | none => rfl
    | some o2 => rw [h1, h2] at hd; simp at hd
  | some o1 =>
    cases h2 : dictFind m2 i with
    | none => rw [h1, h2] at hd; simp at hd
    | some o2 => rfl

theorem phase1_congr {m1 m2 : List (Nat × OSD)} (hup : ∀ i, osdUp m1 i = osdUp m2 i)
    (domains : List (String × List Nat)) (n : Nat) :
    ∀ (racks : List String) (sel : List Nat) (used : List String) (g : Nat),
      phase1 domains m1 n racks sel used g = phase1 domains m2 n racks sel used g := by
  have hfun : osdUp m1 = osdUp m2 := funext hup
  intro racks
  induction racks with
  | nil => intro sel used g; rfl
  | cons rack rest ih =>
    intro sel used g
    simp only [phase1, hfun]
    by_cases hstop : n ≤ sel.length
    · rw [if_pos hstop, if_pos hstop]
    · rw [if_neg hstop, if_neg hstop]
      by_cases hcond : (((dictFind domains rack).getD []).filter (fun i => osdUp m2 i)) ≠ [] ∧
          rack ∉ used
      · rw [if_pos hcond, if_pos hcond]
        exact ih _ _ _
      · rw [if_neg hcond, if_neg hcond]
        exact ih _ _ _

theorem selectOsds_congr {m1 m2 : List (Nat × OSD)} (h : topoOf m1 = topoOf m2)
    (domains : List (String × List Nat)) (pgid : String) (n g0 : Nat) :
    selectOsds domains m1 pgid n g0 = selectOsds domains m2 pgid n g0 := by
  have hfun : osdUp m1 = osdUp m2 := funext (osdUp_congr h)
  have hph := phase1_congr (osdUp_congr h) domains n
    (modelShuffle (domains.map Prod.fst) (strSeed pgid)).1 [] []
    (modelShuffle (domains.map Prod.fst) (strSeed pgid)).2
  rw [selectOsds_eq, selectOsds_eq]
  simp only [hph, hfun, keys_congr h]

theorem updateOnePg_congr {m1 m2 : List (Nat × OSD)} (h : topoOf m1 = topoOf m2)
    (domains : List (String × List Nat)) (pools : List (Nat × Pool))
    (pg : PlacementGroup) :
    updateOnePg m1 domains pools pg = updateOnePg m2 domains pools pg := by
  unfold updateOnePg
  simp only [selectOsds_congr h]

theorem mem_insertIfNew_of_mem {α : Type} [DecidableEq α] {l : List α} {a s : α}
    (h : s ∈ l) : s ∈ insertIfNew l a := by
  unfold insertIfNew
  split
  · exact h
  · exact List.mem_append_left _ h

theorem mem_insertIfNew_self {α : Type} [DecidableEq α] (l : List α) (a : α) :
    a ∈ insertIfNew l a := by
  unfold insertIfNew
  split
  · assumption
  · exact List.mem_append_right _ (List.mem_singleton.mpr rfl)

theorem assignmentsOf_addPg_mono {m : List (Nat × OSD)} {i : Nat} {pgid : String}
    {k : Nat} {s : String} (hs : s ∈ assignmentsOf m k) :
    s ∈ assignmentsOf
      (dictModify m i (fun o => { o with pg_assignments := insertIfNew o.pg_assignments pgid }))
      k := by
  unfold assignmentsOf at *
  by_cases hk : k = i
  · subst hk
    rw [dictFind_dictModify_self]
    cases ho : dictFind m k with
    | none => rw [ho] at hs; cases hs
    | some o =>
      rw [ho] at hs
      simp only [Option.map_some']
      exact mem_insertIfNew_of_mem hs
  · rw [dictFind_dictModify_ne _ _ _ _ hk]
    exact hs

theorem addAssignments_mono {pgid : String} {k : Nat} {s : String} :
    ∀ (os : List Nat) (m : List (Nat × OSD)), s ∈ assignmentsOf m k →
      s ∈ assignmentsOf (addAssignments m pgid os) k := by
  intro os
  induction os with
  | nil => intro m hs; exact hs
  | cons i rest ih =>
    intro m hs
    exact ih _ (assignmentsOf_addPg_mono hs)

theorem topoOf_dictModify_state_preserving (m : List (Nat × OSD)) (k : Nat)
    (f : OSD → OSD) (hf : ∀ o, (f o).state = o.state) :
    topoOf (dictModify m k f) = topoOf m := by
  induction m with
  | nil => rfl
  | cons kv rest ih =>
    by_cases hk : kv.1 = k
    · simp [dictModify, topoOf, hk, hf]
    · have ih2 : List.map (fun kv => (kv.1, kv.2.state)) (dictModify rest k f) =
          List.map (fun kv => (kv.1, kv.2.state)) rest := ih
      simp only [dictModify, if_neg hk, topoOf, List.map_cons, ih2]

theorem addAssignments_topo (pgid : String) :
    ∀ (os : List Nat) (m : List (Nat × OSD)), topoOf (addAssignments m pgid os) = topoOf m := by
  intro os
  induction os with
  | nil => intro m; rfl
  | cons i rest ih =>
    intro m
    rw [show addAssignments m pgid (i :: rest) =
      addAssignments (dictModify m i
        (fun o => { o with pg_assignments := insertIfNew o.pg_assignments pgid })) pgid rest
      from rfl]
    rw [ih, topoOf_dictModify_state_preserving]
    intro o
    rfl

theorem addAssignments_mem {pgid : String} :
    ∀ (os : List Nat) (m : List (Nat × OSD)) (i : Nat), i ∈ os →
      (dictFind m i).isSome = true → pgid ∈ assignmentsOf (addAssignments m pgid os) i := by
  intro os
  induction os with
  | nil => intro m i hi; cases hi
  | cons j rest ih =>
    intro m i hi hsome
    rcases List.mem_cons.mp hi with rfl | hm
    · rw [show addAssignments m pgid (i :: rest) =
          addAssignments (dictModify m i
            (fun o => { o with pg_assignments := insertIfNew o.pg_assignments pgid })) pgid rest
        from rfl]
      apply addAssignments_mono
      unfold assignmentsOf
      rw [dictFind_dictModify_self]
      obtain ⟨o, ho⟩ := Option.isSome_iff_exists.mp hsome
      rw [ho]
      simp only [Option.map_some']
      exact mem_insertIfNew_self _ _
    · rw [show addAssignments m pgid (j :: rest) =
          addAssignments (dictModify m j
            (fun o => { o with pg_assignments := insertIfNew o.pg_assignments pgid })) pgid rest
        from rfl]
      apply ih _ i hm
      by_cases hk : i = j
      · subst hk
        rw [dictFind_dictModify_self]
        simpa using hsome
      · rw [dictFind_dictModify_ne _ _ _ _ hk]
        exact hsome

theorem updatePgsAux_topo (d : List (String × List Nat)) (pools : List (Nat × Pool)) :
    ∀ (pgs : List (String × PlacementGroup)) (m : List (Nat × OSD)),
      topoOf (updatePgsAux d pools pgs m).2 = topoOf m := by
  intro pgs
  induction pgs with
  | nil => intro m; rfl
  | cons kv rest ih =>
    obtain ⟨k, pg⟩ := kv
    intro m
    simp only [updatePgsAux]
    rw [ih, addAssignments_topo]

theorem updatePgsAux_pgs (d : List (String × List Nat)) (pools : List (Nat × Pool))
    (m0 : List (Nat × OSD)) :
    ∀ (pgs : List (String × PlacementGroup)) (m : List (Nat × OSD)), topoOf m = topoOf m0 →
      (updatePgsAux d pools pgs m).1 =
        pgs.map (fun kv => (kv.1, (updateOnePg m0 d pools kv.2).1)) := by
  intro pgs
  induction pgs with
  | nil => intro m _; rfl
  | cons kv rest ih =>
    obtain ⟨k, pg⟩ := kv
    intro m h
    simp only [updatePgsAux, List.map_cons]
    rw [updateOnePg_congr h]
    refine congrArg _ ?_
    apply ih
    rw [addAssignments_topo]
    exact h

theorem updatePgsAux_assign_mono (d : List (String × List Nat)) (pools : List (Nat × Pool))
    {k : Nat} {s : String} :
    ∀ (pgs : List (String × PlacementGroup)) (m : List (Nat × OSD)),
      s ∈ assignmentsOf m k → s ∈ assignmentsOf (updatePgsAux d pools pgs m).2 k := by
  intro pgs
  induction pgs with
  | nil => intro m hs; exact hs
  | cons kv rest ih =>
    obtain ⟨k1, pg1⟩ := kv
    intro m hs
    simp only [updatePgsAux]
    exact ih _ (addAssignments_mono _ _ hs)

theorem updatePgsAux_assign_new (d : List (String × List Nat)) (pools : List (Nat × Pool))
    (m0 : List (Nat × OSD)) :
    ∀ (pgs : List (String × PlacementGroup)) (m : List (Nat × OSD)), topoOf m = topoOf m0 →
      ∀ (k0 : String) (pg : PlacementGroup), (k0, pg) ∈ pgs →
        ∀ i ∈ (updateOnePg m0 d pools pg).2, (dictFind m0 i).isSome = true →
          (updateOnePg m0 d pools pg).1.pgid ∈
            assignmentsOf (updatePgsAux d pools pgs m).2 i := by
  intro pgs
  induction pgs with
  | nil => intro m _ k0 pg h; cases h
  | cons kv rest ih =>
    obtain ⟨k1, pg1⟩ := kv
    intro m htopo k0 pg hmem i hi hsome
    simp only [updatePgsAux]
    rcases List.mem_cons.mp hmem with heq | hm
    · injection heq with h1 h2
      subst h2
      rw [updateOnePg_congr htopo]
      apply updatePgsAux_assign_mono
      apply addAssignments_mem _ _ i
      · exact hi
      · rw [dictFind_isSome_congr htopo]
        exact hsome
    · apply ih _ ?_ k0 pg hm i hi hsome
      rw [addAssignments_topo]
      exact htopo

theorem updateOnePg_shape (m : List (Nat × OSD)) (d : List (String × List Nat))
    (pools : List (Nat × Pool)) (pg : PlacementGroup) (pool : Pool)
    (hpool : dictFind pools pg.pool_id = some pool) :
    (selectOsds d m pg.pgid pool.size 0 = [] ∧
      (updateOnePg m d pools pg).1 = { pg with state := PGState.inactive } ∧
      (updateOnePg m d pools pg).2 = []) ∨
    (∃ o rest, selectOsds d m pg.pgid pool.size 0 = o :: rest ∧
      (updateOnePg m d pools pg).1 =
        { pg with
          primary_osd := some o,
          replica_osds := rest,
          state := if pool.size ≤ (o :: rest).length then PGState.activeClean
            else PGState.activeDegraded } ∧
      (updateOnePg m d pools pg).2 = o :: rest) := by
  have he : updateOnePg m d pools pg =
      (match selectOsds d m pg.pgid pool.size 0 with
       | [] => ({ pg with state := PGState.inactive }, [])
       | o :: rest =>
         ({ pg with
            primary_osd := some o,
            replica_osds := rest,
            state := if pool.size ≤ (o :: rest).length then PGState.activeClean
              else PGState.activeDegraded },
          o :: rest)) := by
    unfold updateOnePg
    rw [hpool]
  cases hsel : selectOsds d m pg.pgid pool.size 0 with
  | nil =>
    rw [hsel] at he
    exact Or.inl ⟨rfl, by rw [he], by rw [he]⟩
  | cons o rest =>
    rw [hsel] at he
    exact Or.inr ⟨o, rest, rfl, by rw [he], by rw [he]⟩

theorem updatePgMappings_red (mon : Monitor) (d : List (String × List Nat))
    (hc : mon.crushDomains = some d) (hp : mon.pools ≠ []) :
    updatePgMappings mon = { mon with
      pg_map := (updatePgsAux d mon.pools mon.pg_map mon.osd_map).1,
      osd_map := (updatePgsAux d mon.pools mon.pg_map mon.osd_map).2 } := by
  have hpne : ¬ mon.pools.isEmpty = true := by
    simpa [List.isEmpty_iff] using hp
  unfold updatePgMappings
  rw [hc]
  simp only [if_neg hpne]

/-- C7 counterexample: on a reachable one-OSD cluster, setting the only
OSD `down` leaves the PG's stale acting set `[0]` in place (only the
state is flipped to `inactive`), so right after `update_pg_mappings`
returns, the acting set contains an OSD that is not `up`. -/
theorem stale_acting_after_down_cex :
    ¬ ∀ kv ∈ monA3.pg_map, ∀ i ∈ actingSet kv.2, osdUp monA3.osd_map i = true := by
  decide

/-- C7 amended: at the moment `update_pg_mappings` returns, every PG
whose state is not `inactive` (i.e. whose fresh selection was
nonempty) has an acting set of currently-`up` OSDs of length at most
its pool's `size`; a PG marked `inactive` may retain a stale acting
set. -/
theorem update_pg_mappings_active_acting_up (mon : Monitor) (d : List (String × List Nat))
    (hc : mon.crushDomains = some d) (hp : mon.pools ≠ [])
    (hI1 : ∀ kv ∈ mon.pg_map, (dictFind mon.pools kv.2.pool_id).isSome = true) :
    ∀ kv ∈ (updatePgMappings mon).pg_map, kv.2.state ≠ PGState.inactive →
      (∀ i ∈ actingSet kv.2, osdUp (updatePgMappings mon).osd_map i = true) ∧
      ∃ pool, dictFind (updatePgMappings mon).pools kv.2.pool_id = some pool ∧
        (actingSet kv.2).length ≤ pool.size := by
  have hR := updatePgMappings_red mon d hc hp
  have hRpg : (updatePgMappings mon).pg_map =
      mon.pg_map.map (fun kv => (kv.1, (updateOnePg mon.osd_map d mon.pools kv.2).1)) := by
    rw [hR]
    exact updatePgsAux_pgs d mon.pools mon.osd_map mon.pg_map mon.osd_map rfl
  have hRtopo : topoOf (updatePgMappings mon).osd_map = topoOf mon.osd_map := by
    rw [hR]
    exact updatePgsAux_topo d mon.pools mon.pg_map mon.osd_map
  intro kv hkv hstate
  rw [hRpg] at hkv
  obtain ⟨⟨k0, pg0⟩, hmem, hkv_eq⟩ := List.mem_map.mp hkv
  simp only at hkv_eq
  subst hkv_eq
  obtain ⟨pool, hpool⟩ := Option.isSome_iff_exists.mp (hI1 (k0, pg0) hmem)
  rcases updateOnePg_shape mon.osd_map d mon.pools pg0 pool hpool with
    ⟨hsel, hpg, hrep⟩ | ⟨o, rest, hsel, hpg, hrep⟩
  · exfalso
    apply hstate
    show ((updateOnePg mon.osd_map d mon.pools pg0).1).state = PGState.inactive
    rw [hpg]
  · constructor
    · intro i hi
      have hiact : i ∈ actingSet (updateOnePg mon.osd_map d mon.pools pg0).1 := hi
      rw [hpg] at hiact
      have hiact2 : i ∈ o :: rest := hiact
      rw [osdUp_congr hRtopo i]
      refine selectOsds_mem_up d mon.osd_map pg0.pgid pool.size 0 i ?_
      rw [hsel]
      exact hiact2
    · refine ⟨pool, ?_, ?_⟩
      · rw [updatePgMappings_pools]
        show dictFind mon.pools ((updateOnePg mon.osd_map d mon.pools pg0).1).pool_id =
          some pool
        rw [hpg]
        exact hpool
      · show (actingSet ((updateOnePg mon.osd_map d mon.pools pg0).1)).length ≤ pool.size
        rw [hpg]
        show (o :: rest).length ≤ pool.size
        rw [← hsel]
        exact selectOsds_length_le d mon.osd_map pg0.pgid pool.size 0

theorem update_pg_mappings_active_acting_up_witness :
    monA2.pools ≠ [] ∧
      ∀ kv ∈ (updatePgMappings monA2).pg_map, kv.2.state ≠ PGState.inactive →
        (∀ i ∈ actingSet kv.2, osdUp (updatePgMappings monA2).osd_map i = true) ∧
        ∃ pool, dictFind (updatePgMappings monA2).pools kv.2.pool_id = some pool ∧
          (actingSet kv.2).length ≤ pool.size :=
  ⟨by decide, update_pg_mappings_active_acting_up monA2 [("r1", [0])]
    (by decide) (by decide) (by decide)⟩

/-- C3 counterexample: on a reachable two-OSD cluster whose single PG
first mapped to OSD 1, setting OSD 1 `down` re-maps the PG to OSD 0,
yet OSD 1's `pg_assignments` still contains the PG — `pg_assignments`
is not the exact set of PGs whose acting set contains the OSD. -/
theorem stale_assignment_cex :
    ¬ ∀ kv ∈ monB3.osd_map, ∀ s ∈ kv.2.pg_assignments,
        ∃ kv2 ∈ monB3.pg_map, kv2.2.pgid = s ∧ kv.1 ∈ actingSet kv2.2 := by
  decide

/-- C3 amended: `update_pg_mappings` only accumulates assignments: at
return, every OSD of a freshly selected acting set has the PG recorded
in its `pg_assignments` (second conjunct), but existing entries — in
particular PGs that no longer map to the OSD — are never removed
(first conjunct). -/
theorem update_pg_mappings_assignments (mon : Monitor) (d : List (String × List Nat))
    (hc : mon.crushDomains = some d) (hp : mon.pools ≠ [])
    (hI1 : ∀ kv ∈ mon.pg_map, (dictFind mon.pools kv.2.pool_id).isSome = true) :
    (∀ (k : Nat) (s : String), s ∈ assignmentsOf mon.osd_map k →
        s ∈ assignmentsOf (updatePgMappings mon).osd_map k) ∧
      ∀ kv ∈ (updatePgMappings mon).pg_map, kv.2.state ≠ PGState.inactive →
        ∀ i ∈ actingSet kv.2, kv.2.pgid ∈ assignmentsOf (updatePgMappings mon).osd_map i := by
  have hR := updatePgMappings_red mon d hc hp
  have hRosd : (updatePgMappings mon).osd_map =
      (updatePgsAux d mon.pools mon.pg_map mon.osd_map).2 := by rw [hR]
  have hRpg : (updatePgMappings mon).pg_map =
      mon.pg_map.map (fun kv => (kv.1, (updateOnePg mon.osd_map d mon.pools kv.2).1)) := by
    rw [hR]
    exact updatePgsAux_pgs d mon.pools mon.osd_map mon.pg_map mon.osd_map rfl
  constructor
  · intro k s hs
    rw [hRosd]
    exact updatePgsAux_assign_mono d mon.pools mon.pg_map mon.osd_map hs
  · intro kv hkv hstate
    rw [hRpg] at hkv
    obtain ⟨⟨k0, pg0⟩, hmem, hkv_eq⟩ := List.mem_map.mp hkv
    simp only at hkv_eq
    subst hkv_eq
    obtain ⟨pool, hpool⟩ := Option.isSome_iff_exists.mp (hI1 (k0, pg0) hmem)
    rcases updateOnePg_shape mon.osd_map d mon.pools pg0 pool hpool with
      ⟨hsel, hpg, hrep⟩ | ⟨o, rest, hsel, hpg, hrep⟩
    · exfalso
      apply hstate
      show ((updateOnePg mon.osd_map d mon.pools pg0).1).state = PGState.inactive
      rw [hpg]
    · intro i hi
      have hiact : i ∈ actingSet (updateOnePg mon.osd_map d mon.pools pg0).1 := hi
      rw [hpg] at hiact
      have hiact2 : i ∈ o :: rest := hiact
      have hiS : i ∈ (updateOnePg mon.osd_map d mon.pools pg0).2 := by
        rw [hrep]
        exact hiact2
      have hsome : (dictFind mon.osd_map i).isSome = true := by
        obtain ⟨o2, ho2, _⟩ := selectOsds_up_isSome (show i ∈ selectOsds d mon.osd_map
          pg0.pgid pool.size 0 by rw [hsel]; exact hiact2)
        rw [ho2]
        rfl
      have hnew := updatePgsAux_assign_new d mon.pools mon.osd_map mon.pg_map mon.osd_map
        rfl k0 pg0 hmem i hiS hsome
      rw [hRosd]
      exact hnew

theorem update_pg_mappings_assignments_witness :
    monB2.pools ≠ [] ∧
      ((∀ (k : Nat) (s : String), s ∈ assignmentsOf monB2.osd_map k →
          s ∈ assignmentsOf (updatePgMappings monB2).osd_map k) ∧
        ∀ kv ∈ (updatePgMappings monB2).pg_map, kv.2.state ≠ PGState.inactive →
          ∀ i ∈ actingSet kv.2, kv.2.pgid ∈ assignmentsOf (updatePgMappings monB2).osd_map i) :=
  ⟨by decide, update_pg_mappings_assignments monB2 [("r1", [0]), ("r2", [1])]
    (by decide) (by decide) (by decide)⟩

/-- C8 counterexample: on a reachable three-OSD cluster with a
replicated pool (`size = 2`), OSD 2 sits in the PG's acting set;
setting it `down` recomputes the PG to the two remaining `up` OSDs and
marks it `active+clean` — not `active+degraded` — even though the new
acting set has up members. -/
theorem down_recompute_clean_cex :
    2 ∈ ((dictFind monD2.pg_map "0.0").map actingSet).getD [] ∧
      (dictFind monD3.pg_map "0.0").map (fun pg => pg.state) = some PGState.activeClean ∧
      (dictFind monD3.pg_map "0.0").map (fun pg => pg.state) ≠ some PGState.activeDegraded ∧
      ∃ i ∈ ((dictFind monD3.pg_map "0.0").map actingSet).getD [],
        osdUp monD3.osd_map i = true := by
  decide

/-- C8 amended: after `set_osd_state(X, "down")` every PG is
recomputed; a PG whose fresh selection is nonempty is never
`inactive`: it gets `active+clean` when the new acting set reaches
`pool.size` and `active+degraded` otherwise; a PG is marked `inactive`
only when no OSD of the cluster is `up` at all. -/
theorem set_osd_state_down_pg_states (mon : Monitor) (X : Nat)
    (d : List (String × List Nat))
    (hpresent : (dictFind mon.osd_map X).isSome = true)
    (hc : mon.crushDomains = some d) (hp : mon.pools ≠ [])
    (hI1 : ∀ kv ∈ mon.pg_map, (dictFind mon.pools kv.2.pool_id).isSome = true)
    (hsz : ∀ kv ∈ mon.pools, 1 ≤ kv.2.size) :
    (setOsdState mon X "down").1 = true ∧
      ∀ kv ∈ (setOsdState mon X "down").2.pg_map,
        (kv.2.state = PGState.inactive →
          ∀ i, osdUp (setOsdState mon X "down").2.osd_map i = false) ∧
        (kv.2.state ≠ PGState.inactive →
          ∃ pool, dictFind mon.pools kv.2.pool_id = some pool ∧
            kv.2.state = (if pool.size ≤ (actingSet kv.2).length then PGState.activeClean
              else PGState.activeDegraded) ∧ actingSet kv.2 ≠ []) := by
  have hred : setOsdState mon X "down" =
      (true, updatePgMappings { mon with
        osd_map := dictModify mon.osd_map X (fun o => { o with state := OSDAState.down }) }) := by
    unfold setOsdState
    rw [if_pos hpresent]
    rfl
  rw [hred]
  refine ⟨rfl, ?_⟩
  have hc1 : ({ mon with
      osd_map := dictModify mon.osd_map X
        (fun o => { o with state := OSDAState.down }) } : Monitor).crushDomains = some d := hc
  have hp1 : ({ mon with
      osd_map := dictModify mon.osd_map X
        (fun o => { o with state := OSDAState.down }) } : Monitor).pools ≠ [] := hp
  have hR := updatePgMappings_red _ d hc1 hp1
  have hRpg : (updatePgMappings { mon with
      osd_map := dictModify mon.osd_map X
        (fun o => { o with state := OSDAState.down }) }).pg_map =
      mon.pg_map.map (fun kv => (kv.1, (updateOnePg
        (dictModify mon.osd_map X (fun o => { o with state := OSDAState.down }))
        d mon.pools kv.2).1)) := by
    rw [hR]
    exact updatePgsAux_pgs d mon.pools _ mon.pg_map _ rfl
  have hRtopo : topoOf (updatePgMappings { mon with
      osd_map := dictModify mon.osd_map X
        (fun o => { o with state := OSDAState.down }) }).osd_map =
      topoOf (dictModify mon.osd_map X (fun o => { o with state := OSDAState.down })) := by
    rw [hR]
    exact updatePgsAux_topo d mon.pools mon.pg_map _
  intro kv hkv
  rw [hRpg] at hkv
  obtain ⟨⟨k0, pg0⟩, hmem, hkv_eq⟩ := List.mem_map.mp hkv
  simp only at hkv_eq
  subst hkv_eq
  obtain ⟨pool, hpool⟩ := Option.isSome_iff_exists.mp (hI1 (k0, pg0) hmem)
  have hszp : 1 ≤ pool.size := hsz _ (dictFind_eq_some_mem hpool)
  rcases updateOnePg_shape
      (dictModify mon.osd_map X (fun o => { o with state := OSDAState.down }))
      d mon.pools pg0 pool hpool with
    ⟨hsel, hpg, hrep⟩ | ⟨o, rest, hsel, hpg, hrep⟩
  · constructor
    · intro _ i
      rw [osdUp_congr hRtopo i]
      exact selectOsds_nil_no_up d _ pg0.pgid pool.size 0 hsel hszp i
    · intro hstate
      exfalso
      apply hstate
      show ((updateOnePg _ d mon.pools pg0).1).state = PGState.inactive
      rw [hpg]
  · constructor
    · intro hstate
      exfalso
      have : ((updateOnePg
          (dictModify mon.osd_map X (fun o => { o with state := OSDAState.down }))
          d mon.pools pg0).1).state = PGState.inactive := hstate
      rw [hpg] at this
      show False
      by_cases hcnd : pool.size ≤ (o :: rest).length
      · rw [show ({ pg0 with
            primary_osd := some o,
            replica_osds := rest,
            state := if pool.size ≤ (o :: rest).length then PGState.activeClean
              else PGState.activeDegraded } : PlacementGroup).state =
          (if pool.size ≤ (o :: rest).length then PGState.activeClean
            else PGState.activeDegraded) from rfl, if_pos hcnd] at this
        exact PGState.noConfusion this
      · rw [show ({ pg0 with
            primary_osd := some o,
            replica_osds := rest,
            state := if pool.size ≤ (o :: rest).length then PGState.activeClean
              else PGState.activeDegraded } : PlacementGroup).state =
          (if pool.size ≤ (o :: rest).length then PGState.activeClean
            else PGState.activeDegraded) from rfl, if_neg hcnd] at this
        exact PGState.noConfusion this
    · intro _
      refine ⟨pool, ?_, ?_, ?_⟩
      · show dictFind mon.pools ((updateOnePg _ d mon.pools pg0).1).pool_id = some pool
        rw [hpg]
        exact hpool
      · show ((updateOnePg _ d mon.pools pg0).1).state =
          (if pool.size ≤ (actingSet ((updateOnePg _ d mon.pools pg0).1)).length
            then PGState.activeClean else PGState.activeDegraded)
        rw [hpg]
        rfl
      · show actingSet ((updateOnePg _ d mon.pools pg0).1) ≠ []
        rw [hpg]
        intro hcon
        exact List.cons_ne_nil o rest hcon

theorem set_osd_state_down_pg_states_witness :
    (dictFind monD2.osd_map 2).isSome = true ∧
      ((setOsdState monD2 2 "down").1 = true ∧
        ∀ kv ∈ (setOsdState monD2 2 "down").2.pg_map,
          (kv.2.state = PGState.inactive →
            ∀ i, osdUp (setOsdState monD2 2 "down").2.osd_map i = false) ∧
          (kv.2.state ≠ PGState.inactive →
            ∃ pool, dictFind monD2.pools kv.2.pool_id = some pool ∧
              kv.2.state = (if pool.size ≤ (actingSet kv.2).length then PGState.activeClean
                else PGState.activeDegraded) ∧ actingSet kv.2 ≠ [])) :=
  ⟨by decide, set_osd_state_down_pg_states monD2 2 [("r1", [0]), ("r2", [1]), ("r3", [2])]
    (by decide) (by decide) (by decide) (by decide) (by decide)⟩

theorem topoOf_dictSet_of_find (m : List (Nat × OSD)) (i : Nat) (o o2 : OSD)
    (hfi : dictFind m i = some o) (hst : o2.state = o.state) :
    topoOf (dictSet m i o2) = topoOf m := by
  induction m with
  | nil => simp [dictFind] at hfi
  | cons kv rest ih =>
    simp only [dictFind] at hfi
    by_cases hk : kv.1 = i
    · rw [if_pos hk] at hfi
      injection hfi with hfi
      simp only [dictSet, if_pos hk, topoOf, List.map_cons]
      rw [hst, hfi]
    · rw [if_neg hk] at hfi
      have ih2 : List.map (fun kv => (kv.1, kv.2.state)) (dictSet rest i o2) =
          List.map (fun kv => (kv.1, kv.2.state)) rest := ih hfi
      simp only [dictSet, if_neg hk, topoOf, List.map_cons, ih2]

theorem storeLoop_topo (pid : Nat) (oid : String) (data : List Nat) (meta : ObjectMeta) :
    ∀ (acting : List Nat) (m : List (Nat × OSD)),
      topoOf (storeLoop pid oid data meta acting m).2 = topoOf m := by
  intro acting
  induction acting with
  | nil => intro m; rfl
  | cons i rest ih =>
    intro m
    simp only [storeLoop]
    cases hfi : dictFind m i with
    | none => exact ih m
    | some o =>
      simp only []
      unfold storeObject
      by_cases hupo : o.state = OSDAState.up
      · rw [if_pos hupo]
        simp only
        rw [ih, topoOf_dictSet_of_find m i o
          { o with store := dictSet o.store (storeKey pid oid) (data, meta) } hfi rfl]
      · rw [if_neg hupo]
        exact ih m

theorem storeLoop_succ (pid : Nat) (oid : String) (data : List Nat) (meta : ObjectMeta) :
    ∀ (acting : List Nat) (m0 m : List (Nat × OSD)), topoOf m = topoOf m0 →
      (storeLoop pid oid data meta acting m).1 = acting.filter (fun i => osdUp m0 i) := by
  intro acting
  induction acting with
  | nil => intro m0 m _; rfl
  | cons i rest ih =>
    intro m0 m h
    simp only [storeLoop, List.filter_cons]
    cases hfi : dictFind m i with
    | none =>
      have hup : osdUp m0 i = false := by
        rw [← osdUp_congr h i]
        unfold osdUp
        rw [hfi]
      rw [hup]
      simp only [Bool.false_eq_true, if_false]
      exact ih m0 m h
    | some o =>
      simp only []
      unfold storeObject
      by_cases hupo : o.state = OSDAState.up
      · have hup : osdUp m0 i = true := by
          rw [← osdUp_congr h i]
          unfold osdUp
          rw [hfi]
          exact decide_eq_true hupo
        rw [hup, if_pos hupo]
        simp only [if_true]
        refine congrArg _ ?_
        refine ih m0 _ ?_
        rw [topoOf_dictSet_of_find m i o
          { o with store := dictSet o.store (storeKey pid oid) (data, meta) } hfi rfl]
        exact h
      · have hup : osdUp m0 i = false := by
          rw [← osdUp_congr h i]
          unfold osdUp
          rw [hfi]
          exact decide_eq_false hupo
        rw [hup, if_neg hupo]
        simp only [Bool.false_eq_true, if_false]
        exact ih m0 m h

theorem storedAt_dictSet {m : List (Nat × OSD)} {pid : Nat} {oid : String}
    {data : List Nat} {meta : ObjectMeta} {j i : Nat} {o o2 : OSD}
    (hj : storedAt m pid oid data meta j) (hfi : dictFind m i = some o)
    (ho2 : o2 = { o with store := dictSet o.store (storeKey pid oid) (data, meta) }) :
    storedAt (dictSet m i o2) pid oid data meta j := by
  obtain ⟨oj, hoj, hst, hstore⟩ := hj
  by_cases hk : j = i
  · subst hk
    rw [hoj] at hfi
    injection hfi with hfi
    subst hfi
    refine ⟨o2, dictFind_dictSet_self _ _ _, ?_, ?_⟩
    · rw [ho2]
      exact hst
    · rw [ho2]
      exact dictFind_dictSet_self _ _ _
  · exact ⟨oj, by rw [dictFind_dictSet_ne _ _ _ _ hk]; exact hoj, hst, hstore⟩

theorem storeLoop_stored_preserved (pid : Nat) (oid : String) (data : List Nat)
    (meta : ObjectMeta) :
    ∀ (acting : List Nat) (m : List (Nat × OSD)) (j : Nat),
      storedAt m pid oid data meta j →
      storedAt (storeLoop pid oid data meta acting m).2 pid oid data meta j := by
  intro acting
  induction acting with
  | nil => intro m j hj; exact hj
  | cons i rest ih =>
    intro m j hj
    simp only [storeLoop]
    cases hfi : dictFind m i with
    | none => exact ih m j hj
    | some o =>
      simp only []
      unfold storeObject
      by_cases hupo : o.state = OSDAState.up
      · rw [if_pos hupo]
        exact ih _ j (storedAt_dictSet hj hfi rfl)
      · rw [if_neg hupo]
        exact ih m j hj

theorem storeLoop_stores (pid : Nat) (oid : String) (data : List Nat) (meta : ObjectMeta) :
    ∀ (acting : List Nat) (m : List (Nat × OSD)) (j : Nat), j ∈ acting →
      osdUp m j = true →
      storedAt (storeLoop pid oid data meta acting m).2 pid oid data meta j := by
  intro acting
  induction acting with
  | nil => intro m j hj; cases hj
  | cons i rest ih =>
    intro m j hj hup
    simp only [storeLoop]
    rcases List.mem_cons.mp hj with rfl | hm
    · have hfi : ∃ o, dictFind m j = some o ∧ o.state = OSDAState.up := by
        unfold osdUp at hup
        cases ho : dictFind m j with
        | none => rw [ho] at hup; cases hup
        | some o => rw [ho] at hup; exact ⟨o, rfl, of_decide_eq_true hup⟩
      obtain ⟨o, ho, hupo⟩ := hfi
      rw [ho]
      simp only []
      unfold storeObject
      rw [if_pos hupo]
      apply storeLoop_stored_preserved
      refine ⟨{ o with store := dictSet o.store (storeKey pid oid) (data, meta) },
        dictFind_dictSet_self _ _ _, hupo, dictFind_dictSet_self _ _ _⟩
    · cases hfi : dictFind m i with
      | none => exact ih m j hm hup
      | some o =>
        simp only []
        unfold storeObject
        by_cases hupo : o.state = OSDAState.up
        · rw [if_pos hupo]
          apply ih _ j hm
          rw [osdUp_congr (topoOf_dictSet_of_find m i o
            { o with store := dictSet o.store (storeKey pid oid) (data, meta) } hfi rfl) j]
          exact hup
        · rw [if_neg hupo]
          exact ih m j hm hup

theorem getLoop_finds (m2 : List (Nat × OSD)) (pid : Nat) (oid : String)
    (data : List Nat) (meta : ObjectMeta) (hchk : sha256 data = meta.checksum) :
    ∀ acting : List Nat, (∃ j ∈ acting, osdUp m2 j = true) →
      (∀ j ∈ acting, osdUp m2 j = true → storedAt m2 pid oid data meta j) →
      getLoop m2 pid oid acting = some (data, meta) := by
  intro acting
  induction acting with
  | nil => intro hex _; obtain ⟨j, hj, _⟩ := hex; cases hj
  | cons i rest ih =>
    intro hex hstored
    simp only [getLoop]
    by_cases hup : osdUp m2 i = true
    · obtain ⟨o, ho, host, hstore⟩ := hstored i (List.mem_cons_self _ _) hup
      rw [ho]
      simp only []
      unfold retrieveObject
      rw [if_pos host, hstore]
      simp only [if_pos hchk]
    · have hnext : ∃ j ∈ rest, osdUp m2 j = true := by
        obtain ⟨j, hj, hju⟩ := hex
        rcases List.mem_cons.mp hj with rfl | hm
        · exact absurd hju hup
        · exact ⟨j, hm, hju⟩
      have hstored2 : ∀ j ∈ rest, osdUp m2 j = true → storedAt m2 pid oid data meta j :=
        fun j hj hju => hstored j (List.mem_cons_of_mem _ hj) hju
      cases ho : dictFind m2 i with
      | none => exact ih hnext hstored2
      | some o =>
        simp only []
        unfold retrieveObject
        have hno : ¬ o.state = OSDAState.up := by
          intro hcon
          apply hup
          unfold osdUp
          rw [ho]
          exact decide_eq_true hcon
        rw [if_neg hno]
        exact ih hnext hstored2

theorem findPool_mem {pools : List (Nat × Pool)} {name : String} {p : Pool}
    (h : findPool pools name = some p) : ∃ k, (k, p) ∈ pools := by
  induction pools with
  | nil => simp [findPool] at h
  | cons kv rest ih =>
    simp only [findPool] at h
    by_cases hn : kv.2.name = name
    · rw [if_pos hn] at h
      injection h with h
      subst h
      exact ⟨kv.1, List.mem_cons_self _ _⟩
    · rw [if_neg hn] at h
      obtain ⟨k, hk⟩ := ih h
      exact ⟨k, List.mem_cons_of_mem _ hk⟩

theorem findPool_updateFirstPool {pools : List (Nat × Pool)} {name : String} {p : Pool}
    (f : Pool → Pool) (hf : ∀ q, (f q).name = q.name)
    (h : findPool pools name = some p) :
    findPool (updateFirstPool pools name f) name = some (f p) := by
  induction pools with
  | nil => simp [findPool] at h
  | cons kv rest ih =>
    simp only [findPool] at h
    by_cases hn : kv.2.name = name
    · rw [if_pos hn] at h
      injection h with h
      subst h
      simp only [updateFirstPool, if_pos hn, findPool]
      rw [if_pos (by rw [hf]; exact hn)]
    · rw [if_neg hn] at h
      simp only [updateFirstPool, if_neg hn, findPool, if_neg hn]
      exact ih h

/-- C9: whenever `put_object` reaches the replica-write phase (pool
found, PG found and not inactive) and fewer than `pool.min_size`
stores succeed, it fails with `ReplicationBelowMin`, leaving the pool
table and PG table exactly unchanged — the object metadata is never
recorded — while the partial replica writes remain on the OSDs. -/
theorem put_object_below_min (mon : Monitor) (pool_name object_id : String)
    (data : List Nat) (now : String) (pool : Pool) (pg : PlacementGroup)
    (hpool : findPool mon.pools pool_name = some pool)
    (hpg : dictFind mon.pg_map (mkPgid pool.pool_id (getPgId pool object_id)) = some pg)
    (hact : pg.state ≠ PGState.inactive)
    (hlow : (storeLoop pool.pool_id object_id data (putMeta pool object_id data now)
      (actingSet pg) mon.osd_map).1.length < pool.min_size) :
    (putObject mon pool_name object_id data now).1 =
        Except.error PutError.replicationBelowMin ∧
      ((putObject mon pool_name object_id data now).2).pools = mon.pools ∧
      ((putObject mon pool_name object_id data now).2).pg_map = mon.pg_map ∧
      ((putObject mon pool_name object_id data now).2).osd_map =
        (storeLoop pool.pool_id object_id data (putMeta pool object_id data now)
          (actingSet pg) mon.osd_map).2 := by
  have h1 : putObject mon pool_name object_id data now =
      putObjectWithPool mon pool_name object_id data now pool := by
    unfold putObject
    rw [hpool]
  have h2 : putObjectWithPool mon pool_name object_id data now pool =
      putObjectWithPg mon pool_name object_id data now pool pg := by
    unfold putObjectWithPool
    rw [hpg]
  have h3 : putObjectWithPg mon pool_name object_id data now pool pg =
      (Except.error PutError.replicationBelowMin,
        { mon with osd_map := (storeLoop pool.pool_id object_id data
          (putMeta pool object_id data now) (actingSet pg) mon.osd_map).2 }) := by
    unfold putObjectWithPg
    rw [if_neg hact]
    simp only [if_pos hlow]
  rw [h1, h2, h3]
  exact ⟨rfl, rfl, rfl, rfl⟩

theorem put_object_below_min_witness :
    findPool monW9.pools "p" = some poolW9 ∧
      ((putObject monW9 "p" "x" [5] "t").1 = Except.error PutError.replicationBelowMin ∧
        ((putObject monW9 "p" "x" [5] "t").2).pools = monW9.pools ∧
        ((putObject monW9 "p" "x" [5] "t").2).pg_map = monW9.pg_map ∧
        ((putObject monW9 "p" "x" [5] "t").2).osd_map =
          (storeLoop poolW9.pool_id "x" [5] (putMeta poolW9 "x" [5] "t")
            (actingSet pgW9) monW9.osd_map).2) :=
  ⟨by decide, put_object_below_min monW9 "p" "x" [5] "t" poolW9 pgW9
    (by decide) (by decide) (by decide) (by decide)⟩

theorem getObject_after_put (mon : Monitor) (pool_name object_id : String)
    (data : List Nat) (now : String) (pool : Pool) (pg : PlacementGroup)
    (hpool : findPool mon.pools pool_name = some pool)
    (hpg : dictFind mon.pg_map (mkPgid pool.pool_id (getPgId pool object_id)) = some pg)
    (hup_ex : ∃ j ∈ actingSet pg, osdUp mon.osd_map j = true) :
    getObject
      { mon with
        osd_map := (storeLoop pool.pool_id object_id data
          (putMeta pool object_id data now) (actingSet pg) mon.osd_map).2,
        pools := updateFirstPool mon.pools pool_name
          (fun p =>
            { p with
              objects := dictSet p.objects object_id (putMeta pool object_id data now) }),
        pg_map := dictModify mon.pg_map (mkPgid pool.pool_id (getPgId pool object_id))
          (fun g => { g with objects := insertIfNew g.objects object_id }) }
      pool_name object_id = some (data, putMeta pool object_id data now) := by
  have hfp := findPool_updateFirstPool
    (fun p =>
      { p with
        objects := dictSet p.objects object_id (putMeta pool object_id data now) })
    (fun q => rfl) hpool
  unfold getObject
  simp only []
  rw [hfp]
  unfold getObjectWithPool
  simp only []
  rw [dictFind_dictSet_self]
  simp only [Option.isSome_some, if_true]
  rw [show (getPgId
      { pool with
        objects := dictSet pool.objects object_id (putMeta pool object_id data now) }
      object_id) = getPgId pool object_id from rfl]
  rw [dictFind_dictModify_self, hpg]
  simp only [Option.map_some']
  have htopo : topoOf (storeLoop pool.pool_id object_id data
      (putMeta pool object_id data now) (actingSet pg) mon.osd_map).2 =
      topoOf mon.osd_map :=
    storeLoop_topo pool.pool_id object_id data (putMeta pool object_id data now)
      (actingSet pg) mon.osd_map
  refine getLoop_finds _ pool.pool_id object_id data (putMeta pool object_id data now)
    rfl (actingSet pg) ?_ ?_
  · obtain ⟨j, hj, hju⟩ := hup_ex
    refine ⟨j, hj, ?_⟩
    rw [osdUp_congr htopo j]
    exact hju
  · intro j hj hju
    apply storeLoop_stores
    · exact hj
    · rw [← osdUp_congr htopo j]
      exact hju

/-- C10: put/get round-trip. Whenever `put_object` succeeds (on a
state whose pools all have `min_size ≥ 1`, as every pool built by
`create_pool` does), a `get_object` for the same name and id on the
resulting state returns exactly the stored bytes together with the
recorded metadata, whose checksum is the digest of those bytes. -/
theorem put_get_roundtrip (mon : Monitor) (pool_name object_id : String)
    (data : List Nat) (now : String)
    (hmin : ∀ kv ∈ mon.pools, 1 ≤ kv.2.min_size)
    (hok : exceptIsOk (putObject mon pool_name object_id data now).1 = true) :
    ∃ meta, getObject (putObject mon pool_name object_id data now).2 pool_name object_id =
        some (data, meta) ∧ meta.checksum = sha256 data := by
  cases hpool : findPool mon.pools pool_name with
  | none =>
    have hput : putObject mon pool_name object_id data now =
        (Except.error PutError.poolNotFound, mon) := by
      unfold putObject
      rw [hpool]
    rw [hput] at hok
    simp [exceptIsOk] at hok
  | some pool =>
    have h1 : putObject mon pool_name object_id data now =
        putObjectWithPool mon pool_name object_id data now pool := by
      unfold putObject
      rw [hpool]
    rw [h1] at hok ⊢
    cases hpg : dictFind mon.pg_map (mkPgid pool.pool_id (getPgId pool object_id)) with
    | none =>
      have hput : putObjectWithPool mon pool_name object_id data now pool =
          (Except.error PutError.pgMissing, mon) := by
        unfold putObjectWithPool
        rw [hpg]
      rw [hput] at hok
      simp [exceptIsOk] at hok
    | some pg =>
      have h2 : putObjectWithPool mon pool_name object_id data now pool =
          putObjectWithPg mon pool_name object_id data now pool pg := by
        unfold putObjectWithPool
        rw [hpg]
      rw [h2] at hok ⊢
      by_cases hact : pg.state = PGState.inactive
      · have hput : putObjectWithPg mon pool_name object_id data now pool pg =
            (Except.error PutError.pgInactive, mon) := by
          unfold putObjectWithPg
          rw [if_pos hact]
        rw [hput] at hok
        simp [exceptIsOk] at hok
      · by_cases hlow : (storeLoop pool.pool_id object_id data
            (putMeta pool object_id data now) (actingSet pg) mon.osd_map).1.length <
            pool.min_size
        · have hput : putObjectWithPg mon pool_name object_id data now pool pg =
              (Except.error PutError.replicationBelowMin,
                { mon with osd_map := (storeLoop pool.pool_id object_id data
                  (putMeta pool object_id data now) (actingSet pg) mon.osd_map).2 }) := by
            unfold putObjectWithPg
            rw [if_neg hact]
            simp only [if_pos hlow]
          rw [hput] at hok
          simp [exceptIsOk] at hok
        · have h3 : putObjectWithPg mon pool_name object_id data now pool pg =
              (Except.ok
                { object_id := object_id, pool := pool_name,
                  pg_id := mkPgid pool.pool_id (getPgId pool object_id),
                  replicas := (storeLoop pool.pool_id object_id data
                    (putMeta pool object_id data now) (actingSet pg) mon.osd_map).1,
                  size_bytes := data.length },
                { mon with
                  osd_map := (storeLoop pool.pool_id object_id data
                    (putMeta pool object_id data now) (actingSet pg) mon.osd_map).2,
                  pools := updateFirstPool mon.pools pool_name
                    (fun p =>
                      { p with
                        objects := dictSet p.objects object_id (putMeta pool object_id data now) }),
                  pg_map := dictModify mon.pg_map
                    (mkPgid pool.pool_id (getPgId pool object_id))
                    (fun g => { g with objects := insertIfNew g.objects object_id }) }) := by
            unfold putObjectWithPg
            rw [if_neg hact]
            simp only [if_neg hlow]
          rw [h3]
          simp only []
          refine ⟨putMeta pool object_id data now, ?_, rfl⟩
          apply getObject_after_put mon pool_name object_id data now pool pg hpool hpg
          have hminp : 1 ≤ pool.min_size := by
            obtain ⟨k, hk⟩ := findPool_mem hpool
            exact hmin (k, pool) hk
          have hsucc := storeLoop_succ pool.pool_id object_id data
            (putMeta pool object_id data now) (actingSet pg) mon.osd_map mon.osd_map rfl
          have hne : (actingSet pg).filter (fun i => osdUp mon.osd_map i) ≠ [] := by
            intro hnil
            rw [hsucc, hnil] at hlow
            simp only [List.length_nil] at hlow
            omega
          obtain ⟨j, hjm⟩ := List.exists_mem_of_ne_nil _ hne
          have hj2 := List.mem_filter.mp hjm
          exact ⟨j, hj2.1, hj2.2⟩

theorem put_get_roundtrip_witness :
    (∀ kv ∈ monT2.pools, 1 ≤ kv.2.min_size) ∧
      ∃ meta, getObject (putObject monT2 "p" "x" [1, 2, 3] "t").2 "p" "x" =
        some ([1, 2, 3], meta) ∧ meta.checksum = sha256 [1, 2, 3] :=
  ⟨by decide, put_get_roundtrip monT2 "p" "x" [1, 2, 3] "t" (by decide) (by decide)⟩

end DistFS
